import Mathlib

/-!
Verification of the halonet V-Net topology builder (`src/halonet/net/model.py`,
`get_model`).

The builder is shallowly embedded as a pure graph-construction function.
A computation graph is a list of nodes; a node stores the Keras layer kind
(with the parameters that the claims talk about) together with the list of
ids of its input nodes.  A node's id is its index in the list; applying a
layer appends one node and returns its id, exactly mirroring the functional
Keras API used by the source.

Python `False`-or-float dropout arguments are embedded as `Option ℚ`
(`none` = `False`); Python truthiness of such a value is `pyTruthy`.
`nlevels` and `nconv` are embedded as `Int` so that non-positive
configurations (claim C9) are expressible; `range(n)` for an `Int` is
`pyRange`.  The local mutable variable `x` of the source is threaded as an
`Option Nat` (`none` = "not yet assigned", so that the source's
`NameError` for `nlevels <= 0` is faithfully reproduced), `forward_list`
as a list of node ids, and — as ghost instrumentation that does not
influence construction — `reads` records, in order, every index at which
`forward_list` is subscripted.
-/

set_option autoImplicit false

namespace Halonet

/-- Layer kinds appearing in `get_model`, with the parameters the spec talks
about.  `conv3d filters kernel samePadding strides`; `conv3dT` is
`Conv3DTranspose` (always `padding='valid'` in the source); `batchNorm`
records the `scale` flag (the source passes `scale=False`); `concat` is
`Concatenate(axis=-1)` (channel axis); `softmax` is `Activation('softmax')`. -/
inductive Op where
  | input (shape : List Int)
  | conv3d (filters : Int) (kernel : List Nat) (samePadding : Bool)
      (strides : List Nat)
  | conv3dT (filters : Int) (kernel : List Nat) (strides : List Nat)
  | batchNorm (scale : Bool)
  | leakyReLU (alpha : ℚ)
  | prelu
  | dropout (rate : ℚ)
  | concat
  | add
  | softmax
  deriving Repr, DecidableEq

/-- A graph node: a layer instance together with the ids of its inputs. -/
structure Node where
  op : Op
  inputs : List Nat
  deriving Repr, DecidableEq

/-- Appending a layer application to the graph; returns the new node's id. -/
def addNode (g : List Node) (op : Op) (ins : List Nat) : List Node × Nat :=
  (g ++ [⟨op, ins⟩], g.length)

/-- The configuration record of `get_model` (its keyword parameters).
`nlevels`, `nfm` and `nconv` are `Int` (Python ints, so non-positive values
are representable); `input_shape` is a tuple of Python ints; the dropout
rates and `lrelu_alpha` are `Option ℚ` (`none` = `False`/`None`). -/
structure Config where
  nlevels : Int
  nfm : Int
  input_shape : List Int
  nconv : Int
  dropout_in : Option ℚ
  dropout_out : Option ℚ
  lrelu_alpha : Option ℚ
  batch_norm : Bool
  deriving Repr, DecidableEq

/-- Python truthiness of a `False`-or-float value (`0.0` is falsy). -/
def pyTruthy : Option ℚ → Bool
  | none => false
  | some r => decide (r ≠ 0)

/-- Python `range(n)` for a possibly non-positive `Int` bound. -/
def pyRange (n : Int) : List Nat := List.range n.toNat

/-- The activation chosen by `NonLinearity`: `LeakyReLU(alpha=lrelu_alpha)`
when `lrelu_alpha` is not `None`, else `PReLU()` (source lines 76-79; the
`lrelu` parameter of the source's `NonLinearity` is never overridden at any
call site, so the branch is on the configuration's `lrelu_alpha`). -/
def actOp (cfg : Config) : Op :=
  match cfg.lrelu_alpha with
  | some a => .leakyReLU a
  | none => .prelu

/-- Source lines 70-84.  Optional `BatchNormalization(scale=False)` (the
`batch_norm` argument defaults to the builder's global flag at every call
site that omits it), exactly one activation, optional `Dropout(dropout)`
when `dropout` is truthy. -/
def NonLinearity (cfg : Config) (g : List Node) (t : Nat) (dropout : Option ℚ)
    (batch_norm : Bool) : List Node × Nat :=
  let p1 := if batch_norm then addNode g (.batchNorm false) [t] else (g, t)
  let p2 := addNode p1.1 (actOp cfg) [p1.2]
  if pyTruthy dropout then addNode p2.1 (.dropout (dropout.getD 0)) [p2.2] else p2

/-- The transition-dropout gate, literally `abs(fi - nlevels) < nlevels`
(source lines 115 and 144). -/
def transCond (nlevels : Int) (fi : Nat) : Bool :=
  decide (|(fi : Int) - nlevels| < nlevels)

/-- The `for ci in range(nconv-1)` loop body of the residual blocks (source
lines 102-105 and 136-139), over an explicit list of round indices:
a 5×5×5 same-padding convolution followed by `NonLinearity` with
`dropout=dropout_in` and `batch_norm=(ci==nconv-2) and batch_norm`. -/
def resRoundsGo (cfg : Config) (filters : Int) :
    List Nat → List Node → Nat → List Node × Nat
  | [], g, t => (g, t)
  | ci :: cis, g, t =>
    let p1 := addNode g (.conv3d filters [5, 5, 5] true [1, 1, 1]) [t]
    let p2 := NonLinearity cfg p1.1 p1.2 cfg.dropout_in
      (decide ((ci : Int) = cfg.nconv - 2) && cfg.batch_norm)
    resRoundsGo cfg filters cis p2.1 p2.2

/-- The additional-convolution rounds with the source's `range(nconv-1)`. -/
def resRounds (cfg : Config) (filters : Int) (g : List Node) (t : Nat) :
    List Node × Nat :=
  resRoundsGo cfg filters (pyRange (cfg.nconv - 1)) g t

/-- The full residual stack shared verbatim by encoder levels `fi > 0`
(source lines 100-105) and all decoder levels (lines 134-139): a first
5×5×5 same-padding convolution to `filters` channels, `NonLinearity` with
`dropout=dropout_in` and `batch_norm=False`, then the `nconv-1` additional
rounds. -/
def residualBlock (cfg : Config) (filters : Int) (g : List Node) (t : Nat) :
    List Node × Nat :=
  let p1 := addNode g (.conv3d filters [5, 5, 5] true [1, 1, 1]) [t]
  let p2 := NonLinearity cfg p1.1 p1.2 cfg.dropout_in false
  resRounds cfg filters p2.1 p2.2

/-- Down transition (source lines 113-118): strided 2×2×2 convolution to
`nfm*2^(fi+1)` channels (default `padding='valid'`), then `NonLinearity`
with `dropout=dropout_out` when `abs(fi - nlevels) < nlevels` and no dropout
otherwise; in both branches `batch_norm` is left at its default, the global
flag. -/
def downTransition (cfg : Config) (g : List Node) (x : Nat) (fi : Nat) :
    List Node × Nat :=
  let p := addNode g (.conv3d (cfg.nfm * 2 ^ (fi + 1)) [2, 2, 2] false [2, 2, 2]) [x]
  if transCond cfg.nlevels fi then
    NonLinearity cfg p.1 p.2 cfg.dropout_out cfg.batch_norm
  else
    NonLinearity cfg p.1 p.2 none cfg.batch_norm

/-- Up transition (source lines 142-147): transposed 2×2×2 convolution to
`nfm*2^fi` channels, then `NonLinearity` under the same dropout gate and the
same defaulted `batch_norm`. -/
def upTransition (cfg : Config) (g : List Node) (x : Nat) (fi : Nat) :
    List Node × Nat :=
  let p := addNode g (.conv3dT (cfg.nfm * 2 ^ fi) [2, 2, 2] [2, 2, 2]) [x]
  if transCond cfg.nlevels fi then
    NonLinearity cfg p.1 p.2 cfg.dropout_out cfg.batch_norm
  else
    NonLinearity cfg p.1 p.2 none cfg.batch_norm

/-- Builder state: the graph so far, the current tensor `x` (`none` before
first assignment), `forward_list`, and the ghost trace `reads` of indices at
which `forward_list` has been subscripted. -/
structure St where
  g : List Node
  x : Option Nat
  fwd : List Nat
  reads : List Nat
  deriving Repr, DecidableEq

/-- State after `input_state = kl.Input(shape=input_shape)` (node 0). -/
def initSt (cfg : Config) : St :=
  { g := [⟨.input cfg.input_shape, []⟩], x := none, fwd := [], reads := [] }

/-- One encoder level (source lines 89-118).  At `fi == 0` the shortcut is
the raw input (node 0) and the residual is a single convolution plus
`NonLinearity` with `batch_norm=False` and default dropout; at `fi > 0` the
shortcut is the current `x` and the residual is the full block at
`nfm*2^fi` channels.  Then the elementwise sum, the `forward_list` append,
and the down transition. -/
def encStep (cfg : Config) (st : St) (fi : Nat) : Except String St :=
  if fi = 0 then
    let p1 := addNode st.g (.conv3d cfg.nfm [5, 5, 5] true [1, 1, 1]) [0]
    let p2 := NonLinearity cfg p1.1 p1.2 none false
    let p3 := addNode p2.1 .add [p2.2, 0]
    let p4 := downTransition cfg p3.1 p3.2 fi
    .ok { g := p4.1, x := some p4.2, fwd := st.fwd ++ [p3.2], reads := st.reads }
  else
    match st.x with
    | none => .error "NameError: name x is not defined"
    | some xv =>
      let p2 := residualBlock cfg (cfg.nfm * 2 ^ fi) st.g xv
      let p3 := addNode p2.1 .add [p2.2, xv]
      let p4 := downTransition cfg p3.1 p3.2 fi
      .ok { g := p4.1, x := some p4.2, fwd := st.fwd ++ [p3.2], reads := st.reads }

/-- One decoder level (source lines 123-147).  The shortcut is the current
`x`; unless `fi == nlevels-1`, `forward_list[fi+1]` is concatenated with `x`
(channel axis) first; then the full residual block at `nfm*2^(fi+1)`
channels, the elementwise sum against the pre-concatenation `x`, and the up
transition. -/
def decStep (cfg : Config) (st : St) (fi : Nat) : Except String St :=
  match st.x with
  | none => .error "NameError: name x is not defined"
  | some xv =>
    let rest := fun (g : List Node) (xcur : Nat) (reads : List Nat) =>
      let p2 := residualBlock cfg (cfg.nfm * 2 ^ (fi + 1)) g xcur
      let p3 := addNode p2.1 .add [p2.2, xv]
      let p4 := upTransition cfg p3.1 p3.2 fi
      Except.ok { g := p4.1, x := some p4.2, fwd := st.fwd, reads := reads }
    if (fi : Int) = cfg.nlevels - 1 then
      rest st.g xv st.reads
    else
      match st.fwd[fi + 1]? with
      | none => .error "IndexError: list index out of range"
      | some f =>
        let p0 := addNode st.g .concat [f, xv]
        rest p0.1 p0.2 (st.reads ++ [fi + 1])

/-- The encoder loop `for fi in range(nlevels)`. -/
def encLoop (cfg : Config) : List Nat → St → Except String St
  | [], st => .ok st
  | fi :: fis, st =>
    match encStep cfg st fi with
    | .ok st' => encLoop cfg fis st'
    | .error e => .error e

/-- The decoder loop `for fi in range(nlevels)[::-1]`. -/
def decLoop (cfg : Config) : List Nat → St → Except String St
  | [], st => .ok st
  | fi :: fis, st =>
    match decStep cfg st fi with
    | .ok st' => decLoop cfg fis st'
    | .error e => .error e

/-- Fusion/head stage (source lines 151-163): concatenate
`forward_list[0]` with `x`; residual = 5×5×5 same-padding convolution to
`nfm` channels, shortcut = 1×1×1 same-padding convolution to `nfm` channels,
both on the concatenated tensor; sum; `NonLinearity` with
`batch_norm=False`; 1×1×1 convolution to 2 channels; `NonLinearity` with
`batch_norm=False`; `Activation('softmax')`.  Fails when `forward_list` is
empty or `x` is unassigned (the source's `IndexError`/`NameError` for
`nlevels <= 0`). -/
def fusionHead (cfg : Config) (st : St) : Except String St :=
  match st.fwd[0]?, st.x with
  | some f0, some xv =>
    let p0 := addNode st.g .concat [f0, xv]
    let p1 := addNode p0.1 (.conv3d cfg.nfm [5, 5, 5] true [1, 1, 1]) [p0.2]
    let p2 := addNode p1.1 (.conv3d cfg.nfm [1, 1, 1] true [1, 1, 1]) [p0.2]
    let p3 := addNode p2.1 .add [p1.2, p2.2]
    let p4 := NonLinearity cfg p3.1 p3.2 none false
    let p5 := addNode p4.1 (.conv3d 2 [1, 1, 1] false [1, 1, 1]) [p4.2]
    let p6 := NonLinearity cfg p5.1 p5.2 none false
    let p7 := addNode p6.1 .softmax [p6.2]
    .ok { g := p7.1, x := some p7.2, fwd := st.fwd, reads := st.reads ++ [0] }
  | _, _ => .error "IndexError: list index out of range"

/-- `get_model`, staged: encoder loop, decoder loop, fusion/head. -/
def get_model_state (cfg : Config) : Except String St :=
  match encLoop cfg (pyRange cfg.nlevels) (initSt cfg) with
  | .error e => .error e
  | .ok st =>
    match decLoop cfg (pyRange cfg.nlevels).reverse st with
    | .error e => .error e
    | .ok st => fusionHead cfg st

/-- The returned Keras model: input placeholder, output tensor, graph. -/
structure Model where
  input : Nat
  output : Nat
  nodes : List Node
  deriving Repr, DecidableEq

/-- `get_model` (source line 33-167): builds the graph and wraps the input
and output handles. -/
def get_model (cfg : Config) : Except String Model :=
  match get_model_state cfg with
  | .ok st => .ok { input := 0, output := st.x.getD 0, nodes := st.g }
  | .error e => .error e

/-- Success test for `Except`. -/
def isOkE {α : Type} (e : Except String α) : Bool :=
  match e with
  | .ok _ => true
  | .error _ => false

/-! ### Observations on graphs -/

/-- Batch-normalization layer? -/
def isBN : Op → Bool
  | .batchNorm _ => true
  | _ => false

/-- Dropout layer? -/
def isDrop : Op → Bool
  | .dropout _ => true
  | _ => false

/-- (Non-transposed) convolution layer? -/
def isConv : Op → Bool
  | .conv3d _ _ _ _ => true
  | _ => false

/-- Transposed convolution layer? -/
def isUpConv : Op → Bool
  | .conv3dT _ _ _ => true
  | _ => false

/-- Elementwise-add layer? -/
def isAdd : Op → Bool
  | .add => true
  | _ => false

/-- Concatenation layer? -/
def isConcat : Op → Bool
  | .concat => true
  | _ => false

/-- Activation layer (LeakyReLU or PReLU)? -/
def isActv : Op → Bool
  | .leakyReLU _ => true
  | .prelu => true
  | _ => false

/-- Number of nodes whose layer kind satisfies `p`. -/
def countOp (p : Op → Bool) (g : List Node) : Nat :=
  g.countP (fun nd => p nd.op)

/-- Filter count of a strided (2×2×2) down-convolution, `none` otherwise. -/
def dcfOp : Op → Option Int
  | .conv3d f _ _ s => if s = [2, 2, 2] then some f else none
  | _ => none

/-- Filter counts of the strided down-convolutions, in graph order. -/
def downConvFilters (g : List Node) : List Int :=
  g.filterMap (fun nd => dcfOp nd.op)

/-- Filter count of a transposed convolution, `none` otherwise. -/
def ucfOp : Op → Option Int
  | .conv3dT f _ _ => some f
  | _ => none

/-- Filter counts of the transposed up-convolutions, in graph order. -/
def upConvFilters (g : List Node) : List Int :=
  g.filterMap (fun nd => ucfOp nd.op)

@[simp] theorem countOp_append (p : Op → Bool) (a b : List Node) :
    countOp p (a ++ b) = countOp p a + countOp p b := by
  simp [countOp, List.countP_append]

@[simp] theorem countOp_nil (p : Op → Bool) : countOp p [] = 0 := rfl

@[simp] theorem countOp_cons (p : Op → Bool) (nd : Node) (l : List Node) :
    countOp p (nd :: l) = countOp p l + (if p nd.op then 1 else 0) := by
  simp [countOp, List.countP_cons]

@[simp] theorem downConvFilters_append (a b : List Node) :
    downConvFilters (a ++ b) = downConvFilters a ++ downConvFilters b := by
  simp [downConvFilters]

@[simp] theorem upConvFilters_append (a b : List Node) :
    upConvFilters (a ++ b) = upConvFilters a ++ upConvFilters b := by
  simp [upConvFilters]

@[simp] theorem isBN_actOp (cfg : Config) : isBN (actOp cfg) = false := by
  cases h : cfg.lrelu_alpha <;> simp [actOp, h, isBN]

@[simp] theorem isDrop_actOp (cfg : Config) : isDrop (actOp cfg) = false := by
  cases h : cfg.lrelu_alpha <;> simp [actOp, h, isDrop]

@[simp] theorem isConv_actOp (cfg : Config) : isConv (actOp cfg) = false := by
  cases h : cfg.lrelu_alpha <;> simp [actOp, h, isConv]

@[simp] theorem isUpConv_actOp (cfg : Config) : isUpConv (actOp cfg) = false := by
  cases h : cfg.lrelu_alpha <;> simp [actOp, h, isUpConv]

@[simp] theorem isAdd_actOp (cfg : Config) : isAdd (actOp cfg) = false := by
  cases h : cfg.lrelu_alpha <;> simp [actOp, h, isAdd]

@[simp] theorem isConcat_actOp (cfg : Config) : isConcat (actOp cfg) = false := by
  cases h : cfg.lrelu_alpha <;> simp [actOp, h, isConcat]

@[simp] theorem isActv_actOp (cfg : Config) : isActv (actOp cfg) = true := by
  cases h : cfg.lrelu_alpha <;> simp [actOp, h, isActv]

@[simp] theorem dcfOp_actOp (cfg : Config) : dcfOp (actOp cfg) = none := by
  cases h : cfg.lrelu_alpha <;> simp [actOp, h, dcfOp]

@[simp] theorem ucfOp_actOp (cfg : Config) : ucfOp (actOp cfg) = none := by
  cases h : cfg.lrelu_alpha <;> simp [actOp, h, ucfOp]

@[simp] theorem dcfOp_conv_unstrided (f : Int) (k : List Nat) (p : Bool) :
    dcfOp (.conv3d f k p [1, 1, 1]) = none := by
  show (if ([1, 1, 1] : List Nat) = [2, 2, 2] then some f else none) = none
  rw [if_neg (by decide)]

@[simp] theorem dcfOp_conv_strided (f : Int) (k : List Nat) (p : Bool) :
    dcfOp (.conv3d f k p [2, 2, 2]) = some f := rfl

@[simp] theorem dcfOp_convT (f : Int) (k s : List Nat) :
    dcfOp (.conv3dT f k s) = none := rfl

@[simp] theorem ucfOp_conv (f : Int) (k : List Nat) (p : Bool)
    (s : List Nat) : ucfOp (.conv3d f k p s) = none := rfl

@[simp] theorem ucfOp_convT (f : Int) (k s : List Nat) :
    ucfOp (.conv3dT f k s) = some f := rfl

@[simp] theorem downConvFilters_nil : downConvFilters [] = [] := rfl

@[simp] theorem upConvFilters_nil : upConvFilters [] = [] := rfl

@[simp] theorem downConvFilters_cons (nd : Node) (l : List Node) :
    downConvFilters (nd :: l) = (dcfOp nd.op).toList ++ downConvFilters l := by
  cases h : dcfOp nd.op <;> simp [downConvFilters, List.filterMap_cons, h]

@[simp] theorem upConvFilters_cons (nd : Node) (l : List Node) :
    upConvFilters (nd :: l) = (ucfOp nd.op).toList ++ upConvFilters l := by
  cases h : ucfOp nd.op <;> simp [upConvFilters, List.filterMap_cons, h]

@[simp] theorem dcfOp_input (sh : List Int) : dcfOp (.input sh) = none := rfl

@[simp] theorem dcfOp_bn (sc : Bool) : dcfOp (.batchNorm sc) = none := rfl

@[simp] theorem dcfOp_lrelu (a : ℚ) : dcfOp (.leakyReLU a) = none := rfl

@[simp] theorem dcfOp_prelu : dcfOp .prelu = none := rfl

@[simp] theorem dcfOp_dropout (r : ℚ) : dcfOp (.dropout r) = none := rfl

@[simp] theorem dcfOp_concat : dcfOp .concat = none := rfl

@[simp] theorem dcfOp_add : dcfOp .add = none := rfl

@[simp] theorem dcfOp_softmax : dcfOp .softmax = none := rfl

@[simp] theorem ucfOp_input (sh : List Int) : ucfOp (.input sh) = none := rfl

@[simp] theorem ucfOp_bn (sc : Bool) : ucfOp (.batchNorm sc) = none := rfl

@[simp] theorem ucfOp_lrelu (a : ℚ) : ucfOp (.leakyReLU a) = none := rfl

@[simp] theorem ucfOp_prelu : ucfOp .prelu = none := rfl

@[simp] theorem ucfOp_dropout (r : ℚ) : ucfOp (.dropout r) = none := rfl

@[simp] theorem ucfOp_concat : ucfOp .concat = none := rfl

@[simp] theorem ucfOp_add : ucfOp .add = none := rfl

@[simp] theorem ucfOp_softmax : ucfOp .softmax = none := rfl

/-! ### Delta lemma for the Nonlinearity Block -/

/-- What `NonLinearity` appends to the graph: at most one batch-norm node
(exactly when its `batch_norm` argument is set), exactly one activation,
at most one dropout node (exactly when its `dropout` argument is truthy, and
then carrying that rate), and nothing else. -/
theorem nl_spec (cfg : Config) (g : List Node) (t : Nat) (d : Option ℚ)
    (b : Bool) :
    ∃ ns, (NonLinearity cfg g t d b).1 = g ++ ns ∧
      countOp isBN ns = (if b then 1 else 0) ∧
      countOp isDrop ns = (if pyTruthy d then 1 else 0) ∧
      countOp isActv ns = 1 ∧
      countOp isConv ns = 0 ∧ countOp isUpConv ns = 0 ∧
      countOp isAdd ns = 0 ∧ countOp isConcat ns = 0 ∧
      downConvFilters ns = [] ∧ upConvFilters ns = [] ∧
      (∀ nd ∈ ns, isDrop nd.op = true → nd.op = .dropout (d.getD 0)) := by
  rcases hl : cfg.lrelu_alpha with _ | a <;> cases b <;> cases hd : pyTruthy d <;>
    simp only [NonLinearity, addNode, actOp, hl, hd, if_true, if_false,
      Bool.false_eq_true, ite_true, ite_false, List.append_assoc,
      List.cons_append, List.nil_append] <;>
    exact ⟨_, rfl, rfl, rfl, rfl, rfl, rfl, rfl, rfl, rfl, rfl, by
      intro nd h hdrop
      fin_cases h <;> simp_all [isDrop]⟩

/-- From a zero `countOp`, the predicate fails on every member. -/
theorem countOp_zero_mem {p : Op → Bool} {l : List Node} (h : countOp p l = 0) :
    ∀ nd ∈ l, p nd.op = false := by
  intro nd hm
  have h2 := List.countP_eq_zero.mp h nd hm
  simpa using h2

/-- What the additional-convolution rounds over an arbitrary round-index
list append: per round one 5×5×5 same-padding convolution at `filters`
channels, one activation, a dropout node iff `dropout_in` is truthy, and a
batch-norm node iff that round's index `ci` satisfies `ci == nconv-2` with
the global flag set. -/
theorem rounds_spec (cfg : Config) (filters : Int) :
    ∀ (L : List Nat) (g : List Node) (t : Nat),
    ∃ ns, (resRoundsGo cfg filters L g t).1 = g ++ ns ∧
      countOp isBN ns =
        L.countP (fun (ci : Nat) => decide ((ci : Int) = cfg.nconv - 2) && cfg.batch_norm) ∧
      countOp isDrop ns = (if pyTruthy cfg.dropout_in then L.length else 0) ∧
      countOp isActv ns = L.length ∧
      countOp isConv ns = L.length ∧ countOp isUpConv ns = 0 ∧
      countOp isAdd ns = 0 ∧ countOp isConcat ns = 0 ∧
      downConvFilters ns = [] ∧ upConvFilters ns = [] ∧
      (∀ nd ∈ ns, isDrop nd.op = true → nd.op = .dropout (cfg.dropout_in.getD 0)) ∧
      (∀ nd ∈ ns, isConv nd.op = true →
        nd.op = .conv3d filters [5, 5, 5] true [1, 1, 1]) := by
  intro L
  induction L with
  | nil =>
    intro g t
    exact ⟨[], by simp [resRoundsGo], by simp, by simp, by simp, by simp, by simp,
      by simp, by simp, by simp [downConvFilters], by simp [upConvFilters],
      by simp, by simp⟩
  | cons ci cis ih =>
    intro g t
    obtain ⟨ns1, h1, hb1, hd1, ha1, hc1, hu1, hA1, hC1, hf1, hg1, hr1⟩ :=
      nl_spec cfg (addNode g (.conv3d filters [5, 5, 5] true [1, 1, 1]) [t]).1
        (addNode g (.conv3d filters [5, 5, 5] true [1, 1, 1]) [t]).2
        cfg.dropout_in (decide ((ci : Int) = cfg.nconv - 2) && cfg.batch_norm)
    obtain ⟨ns2, h2, hb2, hd2, ha2, hc2, hu2, hA2, hC2, hf2, hg2, hr2, hv2⟩ :=
      ih (NonLinearity cfg (addNode g (.conv3d filters [5, 5, 5] true [1, 1, 1]) [t]).1
            (addNode g (.conv3d filters [5, 5, 5] true [1, 1, 1]) [t]).2 cfg.dropout_in
            (decide ((ci : Int) = cfg.nconv - 2) && cfg.batch_norm)).1
        (NonLinearity cfg (addNode g (.conv3d filters [5, 5, 5] true [1, 1, 1]) [t]).1
            (addNode g (.conv3d filters [5, 5, 5] true [1, 1, 1]) [t]).2 cfg.dropout_in
            (decide ((ci : Int) = cfg.nconv - 2) && cfg.batch_norm)).2
    refine ⟨⟨.conv3d filters [5, 5, 5] true [1, 1, 1], [t]⟩ :: (ns1 ++ ns2),
      ?_, ?_, ?_, ?_, ?_, ?_, ?_, ?_, ?_, ?_, ?_, ?_⟩
    · show (resRoundsGo cfg filters cis _ _).1 = _
      rw [h2, h1]
      simp [addNode]
    · simp only [countOp_cons, countOp_append, List.countP_cons, hb1, hb2]
      simp [isBN]
      try omega
    · simp only [countOp_cons, countOp_append, hd1, hd2]
      cases h : pyTruthy cfg.dropout_in <;> simp [isDrop, List.length_cons] <;> try omega
    · simp only [countOp_cons, countOp_append, ha1, ha2]
      simp [isActv, List.length_cons]
      try omega
    · simp only [countOp_cons, countOp_append, hc1, hc2]
      simp [isConv, List.length_cons]
      try omega
    · simp only [countOp_cons, countOp_append, hu1, hu2]
      simp [isUpConv]
    · simp only [countOp_cons, countOp_append, hA1, hA2]
      simp [isAdd]
    · simp only [countOp_cons, countOp_append, hC1, hC2]
      simp [isConcat]
    · simp [downConvFilters] at hf1 hf2 ⊢
      exact ⟨hf1, hf2⟩
    · simp [upConvFilters] at hg1 hg2 ⊢
      exact ⟨hg1, hg2⟩
    · intro nd hm hdrop
      rcases List.mem_cons.mp hm with h | h
      · subst h; simp [isDrop] at hdrop
      · rcases List.mem_append.mp h with h | h
        · exact hr1 nd h hdrop
        · exact hr2 nd h hdrop
    · intro nd hm hconv
      rcases List.mem_cons.mp hm with h | h
      · subst h; rfl
      · rcases List.mem_append.mp h with h | h
        · have := countOp_zero_mem hc1 nd h
          rw [this] at hconv; cases hconv
        · exact hv2 nd h hconv

/-- What a full residual stack (first convolution + Nonlinearity +
additional rounds) appends to the graph.  Its first node is the 5×5×5
same-padding convolution applied to the block's input tensor; it contains
no add, concatenation, or strided/transposed convolution nodes; its
batch-norm count is the count of round indices passing the
`(ci==nconv-2) and batch_norm` gate; dropout nodes (rate `dropout_in`)
appear once per convolution when `dropout_in` is truthy. -/
theorem rb_spec (cfg : Config) (filters : Int) (g : List Node) (t : Nat) :
    ∃ ns, (residualBlock cfg filters g t).1 = g ++ ns ∧
      ns[0]? = some ⟨.conv3d filters [5, 5, 5] true [1, 1, 1], [t]⟩ ∧
      countOp isBN ns =
        (pyRange (cfg.nconv - 1)).countP
          (fun (ci : Nat) => decide ((ci : Int) = cfg.nconv - 2) && cfg.batch_norm) ∧
      countOp isDrop ns =
        (if pyTruthy cfg.dropout_in then 1 + (cfg.nconv - 1).toNat else 0) ∧
      countOp isActv ns = 1 + (cfg.nconv - 1).toNat ∧
      countOp isConv ns = 1 + (cfg.nconv - 1).toNat ∧
      countOp isUpConv ns = 0 ∧
      countOp isAdd ns = 0 ∧ countOp isConcat ns = 0 ∧
      downConvFilters ns = [] ∧ upConvFilters ns = [] ∧
      (∀ nd ∈ ns, isDrop nd.op = true → nd.op = .dropout (cfg.dropout_in.getD 0)) ∧
      (∀ nd ∈ ns, isConv nd.op = true →
        nd.op = .conv3d filters [5, 5, 5] true [1, 1, 1]) := by
  obtain ⟨ns1, h1, hb1, hd1, ha1, hc1, hu1, hA1, hC1, hf1, hg1, hr1⟩ :=
    nl_spec cfg (addNode g (.conv3d filters [5, 5, 5] true [1, 1, 1]) [t]).1
      (addNode g (.conv3d filters [5, 5, 5] true [1, 1, 1]) [t]).2
      cfg.dropout_in false
  obtain ⟨ns2, h2, hb2, hd2, ha2, hc2, hu2, hA2, hC2, hf2, hg2, hr2, hv2⟩ :=
    rounds_spec cfg filters (pyRange (cfg.nconv - 1))
      (NonLinearity cfg (addNode g (.conv3d filters [5, 5, 5] true [1, 1, 1]) [t]).1
        (addNode g (.conv3d filters [5, 5, 5] true [1, 1, 1]) [t]).2
        cfg.dropout_in false).1
      (NonLinearity cfg (addNode g (.conv3d filters [5, 5, 5] true [1, 1, 1]) [t]).1
        (addNode g (.conv3d filters [5, 5, 5] true [1, 1, 1]) [t]).2
        cfg.dropout_in false).2
  have hlen : (pyRange (cfg.nconv - 1)).length = (cfg.nconv - 1).toNat := by
    simp [pyRange]
  refine ⟨⟨.conv3d filters [5, 5, 5] true [1, 1, 1], [t]⟩ :: (ns1 ++ ns2),
    ?_, by simp, ?_, ?_, ?_, ?_, ?_, ?_, ?_, ?_, ?_, ?_, ?_⟩
  · show (resRoundsGo cfg filters _ _ _).1 = _
    rw [h2, h1]
    simp [addNode]
  · simp only [countOp_cons, countOp_append, hb1, hb2]
    simp [isBN]
  · simp only [countOp_cons, countOp_append, hd1, hd2, hlen]
    cases h : pyTruthy cfg.dropout_in <;> simp [isDrop] <;> try omega
  · simp only [countOp_cons, countOp_append, ha1, ha2, hlen]
    simp [isActv]
    try omega
  · simp only [countOp_cons, countOp_append, hc1, hc2, hlen]
    simp [isConv]
    try omega
  · simp only [countOp_cons, countOp_append, hu1, hu2]
    simp [isUpConv]
  · simp only [countOp_cons, countOp_append, hA1, hA2]
    simp [isAdd]
  · simp only [countOp_cons, countOp_append, hC1, hC2]
    simp [isConcat]
  · simp [downConvFilters] at hf1 hf2 ⊢
    exact ⟨hf1, hf2⟩
  · simp [upConvFilters] at hg1 hg2 ⊢
    exact ⟨hg1, hg2⟩
  · intro nd hm hdrop
    rcases List.mem_cons.mp hm with h | h
    · subst h; simp [isDrop] at hdrop
    · rcases List.mem_append.mp h with h | h
      · exact hr1 nd h hdrop
      · exact hr2 nd h hdrop
  · intro nd hm hconv
    rcases List.mem_cons.mp hm with h | h
    · subst h; rfl
    · rcases List.mem_append.mp h with h | h
      · have := countOp_zero_mem hc1 nd h
        rw [this] at hconv; cases hconv
      · exact hv2 nd h hconv

/-- What a down transition appends: the strided 2×2×2 convolution to
`nfm*2^(fi+1)` channels (first node), then a Nonlinearity Block whose
batch-norm node is present iff the global flag is set and whose dropout
node is present iff the transition gate holds and `dropout_out` is truthy. -/
theorem dt_spec (cfg : Config) (g : List Node) (x : Nat) (fi : Nat) :
    ∃ ns, (downTransition cfg g x fi).1 = g ++ ns ∧
      ns[0]? = some ⟨.conv3d (cfg.nfm * 2 ^ (fi + 1)) [2, 2, 2] false [2, 2, 2], [x]⟩ ∧
      countOp isBN ns = (if cfg.batch_norm then 1 else 0) ∧
      countOp isDrop ns =
        (if transCond cfg.nlevels fi && pyTruthy cfg.dropout_out then 1 else 0) ∧
      countOp isAdd ns = 0 ∧ countOp isConcat ns = 0 ∧
      downConvFilters ns = [cfg.nfm * 2 ^ (fi + 1)] ∧ upConvFilters ns = [] := by
  by_cases hc : transCond cfg.nlevels fi = true
  · obtain ⟨ns1, h1, hb1, hd1, ha1, hc1, hu1, hA1, hC1, hf1, hg1, hr1⟩ :=
      nl_spec cfg
        (addNode g (.conv3d (cfg.nfm * 2 ^ (fi + 1)) [2, 2, 2] false [2, 2, 2]) [x]).1
        (addNode g (.conv3d (cfg.nfm * 2 ^ (fi + 1)) [2, 2, 2] false [2, 2, 2]) [x]).2
        cfg.dropout_out cfg.batch_norm
    refine ⟨⟨.conv3d (cfg.nfm * 2 ^ (fi + 1)) [2, 2, 2] false [2, 2, 2], [x]⟩ :: ns1,
      ?_, by simp, ?_, ?_, ?_, ?_, ?_, ?_⟩
    · show (downTransition cfg g x fi).1 = _
      rw [downTransition, if_pos hc, h1]
      simp [addNode]
    · simp only [countOp_cons, hb1]
      simp [isBN]
    · simp only [countOp_cons, hd1, hc]
      simp [isDrop]
    · simp only [countOp_cons, hA1]
      simp [isAdd]
    · simp only [countOp_cons, hC1]
      simp [isConcat]
    · simp [downConvFilters] at hf1 ⊢
      exact hf1
    · simp [upConvFilters] at hg1 ⊢
      exact hg1
  · obtain ⟨ns1, h1, hb1, hd1, ha1, hc1, hu1, hA1, hC1, hf1, hg1, hr1⟩ :=
      nl_spec cfg
        (addNode g (.conv3d (cfg.nfm * 2 ^ (fi + 1)) [2, 2, 2] false [2, 2, 2]) [x]).1
        (addNode g (.conv3d (cfg.nfm * 2 ^ (fi + 1)) [2, 2, 2] false [2, 2, 2]) [x]).2
        none cfg.batch_norm
    refine ⟨⟨.conv3d (cfg.nfm * 2 ^ (fi + 1)) [2, 2, 2] false [2, 2, 2], [x]⟩ :: ns1,
      ?_, by simp, ?_, ?_, ?_, ?_, ?_, ?_⟩
    · show (downTransition cfg g x fi).1 = _
      rw [downTransition, if_neg hc, h1]
      simp [addNode]
    · simp only [countOp_cons, hb1]
      simp [isBN]
    · simp only [countOp_cons, hd1]
      simp [isDrop, pyTruthy, Bool.eq_false_iff.mpr hc]
    · simp only [countOp_cons, hA1]
      simp [isAdd]
    · simp only [countOp_cons, hC1]
      simp [isConcat]
    · simp [downConvFilters] at hf1 ⊢
      exact hf1
    · simp [upConvFilters] at hg1 ⊢
      exact hg1

/-- What an up transition appends: the transposed 2×2×2 convolution to
`nfm*2^fi` channels (first node), then a Nonlinearity Block as in
`dt_spec`. -/
theorem ut_spec (cfg : Config) (g : List Node) (x : Nat) (fi : Nat) :
    ∃ ns, (upTransition cfg g x fi).1 = g ++ ns ∧
      ns[0]? = some ⟨.conv3dT (cfg.nfm * 2 ^ fi) [2, 2, 2] [2, 2, 2], [x]⟩ ∧
      countOp isBN ns = (if cfg.batch_norm then 1 else 0) ∧
      countOp isDrop ns =
        (if transCond cfg.nlevels fi && pyTruthy cfg.dropout_out then 1 else 0) ∧
      countOp isAdd ns = 0 ∧ countOp isConcat ns = 0 ∧
      downConvFilters ns = [] ∧ upConvFilters ns = [cfg.nfm * 2 ^ fi] := by
  by_cases hc : transCond cfg.nlevels fi = true
  · obtain ⟨ns1, h1, hb1, hd1, ha1, hc1, hu1, hA1, hC1, hf1, hg1, hr1⟩ :=
      nl_spec cfg
        (addNode g (.conv3dT (cfg.nfm * 2 ^ fi) [2, 2, 2] [2, 2, 2]) [x]).1
        (addNode g (.conv3dT (cfg.nfm * 2 ^ fi) [2, 2, 2] [2, 2, 2]) [x]).2
        cfg.dropout_out cfg.batch_norm
    refine ⟨⟨.conv3dT (cfg.nfm * 2 ^ fi) [2, 2, 2] [2, 2, 2], [x]⟩ :: ns1,
      ?_, by simp, ?_, ?_, ?_, ?_, ?_, ?_⟩
    · show (upTransition cfg g x fi).1 = _
      rw [upTransition, if_pos hc, h1]
      simp [addNode]
    · simp only [countOp_cons, hb1]
      simp [isBN]
    · simp only [countOp_cons, hd1, hc]
      simp [isDrop]
    · simp only [countOp_cons, hA1]
      simp [isAdd]
    · simp only [countOp_cons, hC1]
      simp [isConcat]
    · simp [downConvFilters] at hf1 ⊢
      exact hf1
    · simp [upConvFilters] at hg1 ⊢
      exact hg1
  · obtain ⟨ns1, h1, hb1, hd1, ha1, hc1, hu1, hA1, hC1, hf1, hg1, hr1⟩ :=
      nl_spec cfg
        (addNode g (.conv3dT (cfg.nfm * 2 ^ fi) [2, 2, 2] [2, 2, 2]) [x]).1
        (addNode g (.conv3dT (cfg.nfm * 2 ^ fi) [2, 2, 2] [2, 2, 2]) [x]).2
        none cfg.batch_norm
    refine ⟨⟨.conv3dT (cfg.nfm * 2 ^ fi) [2, 2, 2] [2, 2, 2], [x]⟩ :: ns1,
      ?_, by simp, ?_, ?_, ?_, ?_, ?_, ?_⟩
    · show (upTransition cfg g x fi).1 = _
      rw [upTransition, if_neg hc, h1]
      simp [addNode]
    · simp only [countOp_cons, hb1]
      simp [isBN]
    · simp only [countOp_cons, hd1]
      simp [isDrop, pyTruthy, Bool.eq_false_iff.mpr hc]
    · simp only [countOp_cons, hA1]
      simp [isAdd]
    · simp only [countOp_cons, hC1]
      simp [isConcat]
    · simp [downConvFilters] at hf1 ⊢
      exact hf1
    · simp [upConvFilters] at hg1 ⊢
      exact hg1

/-- `NonLinearity` with no batch norm and no dropout is exactly one
activation node. -/
theorem nl_plain (cfg : Config) (g : List Node) (t : Nat) :
    NonLinearity cfg g t none false = addNode g (actOp cfg) [t] := rfl

/-- Invariant of the forward-feature buffer: every entry is the id of an
elementwise-add node of the graph (the residual sum of its encoder level),
and entries are in strictly ascending id order (ascending level order). -/
def FwdOk (st : St) : Prop :=
  (∀ i ∈ st.fwd, i < st.g.length ∧ ∃ ins, st.g[i]? = some ⟨Op.add, ins⟩) ∧
  st.fwd.Pairwise (fun a b => a < b)

/-- One encoder level always succeeds (given a current tensor when
`fi > 0`), appends one entry — the id of the level's residual-sum add
node — to the forward buffer, reads nothing from it, and contributes
exactly one strided down-convolution, at `nfm*2^(fi+1)` filters, and no
transposed convolution. -/
theorem encStep_spec (cfg : Config) (st : St) (fi : Nat)
    (h : fi = 0 ∨ st.x.isSome = true) :
    ∃ st' ns a, encStep cfg st fi = .ok st' ∧
      st'.g = st.g ++ ns ∧
      st'.x.isSome = true ∧
      st'.fwd = st.fwd ++ [a] ∧
      st'.reads = st.reads ∧
      st.g.length ≤ a ∧ a < st'.g.length ∧
      (∃ ins, st'.g[a]? = some ⟨Op.add, ins⟩) ∧
      downConvFilters ns = [cfg.nfm * 2 ^ (fi + 1)] ∧
      upConvFilters ns = [] := by
  by_cases hfi : fi = 0
  · subst hfi
    obtain ⟨dns, hdt, hh, hbn, hdr, hA, hC, hdcf, hucf⟩ :=
      dt_spec cfg
        (st.g ++ [⟨.conv3d cfg.nfm [5, 5, 5] true [1, 1, 1], [0]⟩,
          ⟨actOp cfg, [st.g.length]⟩, ⟨.add, [st.g.length + 1, 0]⟩])
        (st.g.length + 2) 0
    have hstep : encStep cfg st 0 = .ok
        { g := (downTransition cfg
            (st.g ++ [⟨.conv3d cfg.nfm [5, 5, 5] true [1, 1, 1], [0]⟩,
              ⟨actOp cfg, [st.g.length]⟩, ⟨.add, [st.g.length + 1, 0]⟩])
            (st.g.length + 2) 0).1,
          x := some (downTransition cfg
            (st.g ++ [⟨.conv3d cfg.nfm [5, 5, 5] true [1, 1, 1], [0]⟩,
              ⟨actOp cfg, [st.g.length]⟩, ⟨.add, [st.g.length + 1, 0]⟩])
            (st.g.length + 2) 0).2,
          fwd := st.fwd ++ [st.g.length + 2], reads := st.reads } := by
      simp [encStep, addNode, nl_plain]
    refine ⟨_, [⟨.conv3d cfg.nfm [5, 5, 5] true [1, 1, 1], [0]⟩,
      ⟨actOp cfg, [st.g.length]⟩, ⟨.add, [st.g.length + 1, 0]⟩] ++ dns,
      st.g.length + 2, hstep, ?_, ?_, rfl, rfl, ?_, ?_, ?_, ?_, ?_⟩
    · rw [hdt]; simp
    · simp
    · omega
    · rw [hdt]
      simp [List.length_append]
      try omega
    · rw [hdt, List.append_assoc, List.getElem?_append_right (by omega)]
      refine ⟨[st.g.length + 1, 0], ?_⟩
      have h2 : st.g.length + 2 - st.g.length = 2 := by omega
      rw [h2]
      rw [List.getElem?_append_left (by simp)]
      rfl
    · simp [hdcf]
    · simp [hucf]
  · rcases h with h | h
    · exact absurd h hfi
    obtain ⟨xv, hx⟩ := Option.isSome_iff_exists.mp h
    obtain ⟨bs, hrb, hrh, hrbn, hrdr, hra, hrc, hru, hrA, hrC, hrf, hrg, hrr, hrv⟩ :=
      rb_spec cfg (cfg.nfm * 2 ^ fi) st.g xv
    obtain ⟨dns, hdt, hh, hbn, hdr, hA, hC, hdcf, hucf⟩ :=
      dt_spec cfg ((residualBlock cfg (cfg.nfm * 2 ^ fi) st.g xv).1 ++
          [⟨.add, [(residualBlock cfg (cfg.nfm * 2 ^ fi) st.g xv).2, xv]⟩])
        ((residualBlock cfg (cfg.nfm * 2 ^ fi) st.g xv).1.length) fi
    have hstep : encStep cfg st fi = .ok
        { g := (downTransition cfg
            ((residualBlock cfg (cfg.nfm * 2 ^ fi) st.g xv).1 ++
              [⟨.add, [(residualBlock cfg (cfg.nfm * 2 ^ fi) st.g xv).2, xv]⟩])
            ((residualBlock cfg (cfg.nfm * 2 ^ fi) st.g xv).1.length) fi).1,
          x := some (downTransition cfg
            ((residualBlock cfg (cfg.nfm * 2 ^ fi) st.g xv).1 ++
              [⟨.add, [(residualBlock cfg (cfg.nfm * 2 ^ fi) st.g xv).2, xv]⟩])
            ((residualBlock cfg (cfg.nfm * 2 ^ fi) st.g xv).1.length) fi).2,
          fwd := st.fwd ++ [(residualBlock cfg (cfg.nfm * 2 ^ fi) st.g xv).1.length],
          reads := st.reads } := by
      simp [encStep, hfi, hx, addNode]
    refine ⟨_, bs ++ [⟨.add, [(residualBlock cfg (cfg.nfm * 2 ^ fi) st.g xv).2, xv]⟩]
        ++ dns,
      (residualBlock cfg (cfg.nfm * 2 ^ fi) st.g xv).1.length,
      hstep, ?_, ?_, rfl, rfl, ?_, ?_, ?_, ?_, ?_⟩
    · rw [hdt, hrb]; simp
    · simp
    · rw [hrb]; simp
    · rw [hdt, hrb]; simp
    · refine ⟨[(residualBlock cfg (cfg.nfm * 2 ^ fi) st.g xv).2, xv], ?_⟩
      show ((downTransition cfg _ _ fi).1)[_]? = _
      rw [hdt, List.append_assoc,
        List.getElem?_append_right (Nat.le_refl _)]
      simp
    · simp [hrf, hdcf]
    · simp [hrg, hucf]

/-- One decoder level always succeeds given a current tensor and, unless at
the deepest level, a forward-buffer entry at `fi+1`; it reads the buffer at
`fi+1` exactly when `fi != nlevels-1`, leaves the buffer itself unchanged,
and contributes exactly one transposed up-convolution, at `nfm*2^fi`
filters, and no strided down-convolution. -/
theorem decStep_spec (cfg : Config) (st : St) (fi : Nat) (xv : Nat)
    (hx : st.x = some xv)
    (h : (fi : Int) = cfg.nlevels - 1 ∨ fi + 1 < st.fwd.length) :
    ∃ st' ns, decStep cfg st fi = .ok st' ∧
      st'.g = st.g ++ ns ∧ st'.x.isSome = true ∧
      st'.fwd = st.fwd ∧
      st'.reads = st.reads ++
        (if (fi : Int) = cfg.nlevels - 1 then [] else [fi + 1]) ∧
      downConvFilters ns = [] ∧
      upConvFilters ns = [cfg.nfm * 2 ^ fi] := by
  by_cases hd : (fi : Int) = cfg.nlevels - 1
  · obtain ⟨bs, hrb, hrh, hrbn, hrdr, hra, hrc, hru, hrA, hrC, hrf, hrg, hrr, hrv⟩ :=
      rb_spec cfg (cfg.nfm * 2 ^ (fi + 1)) st.g xv
    obtain ⟨uns, hut, hh, hbn, hdr, hA, hC, hdcf, hucf⟩ :=
      ut_spec cfg ((residualBlock cfg (cfg.nfm * 2 ^ (fi + 1)) st.g xv).1 ++
          [⟨.add, [(residualBlock cfg (cfg.nfm * 2 ^ (fi + 1)) st.g xv).2, xv]⟩])
        ((residualBlock cfg (cfg.nfm * 2 ^ (fi + 1)) st.g xv).1.length) fi
    have hstep : decStep cfg st fi = .ok
        { g := (upTransition cfg
            ((residualBlock cfg (cfg.nfm * 2 ^ (fi + 1)) st.g xv).1 ++
              [⟨.add, [(residualBlock cfg (cfg.nfm * 2 ^ (fi + 1)) st.g xv).2, xv]⟩])
            ((residualBlock cfg (cfg.nfm * 2 ^ (fi + 1)) st.g xv).1.length) fi).1,
          x := some (upTransition cfg
            ((residualBlock cfg (cfg.nfm * 2 ^ (fi + 1)) st.g xv).1 ++
              [⟨.add, [(residualBlock cfg (cfg.nfm * 2 ^ (fi + 1)) st.g xv).2, xv]⟩])
            ((residualBlock cfg (cfg.nfm * 2 ^ (fi + 1)) st.g xv).1.length) fi).2,
          fwd := st.fwd, reads := st.reads } := by
      simp [decStep, hx, hd, addNode]
    refine ⟨_, bs ++ [⟨.add, [(residualBlock cfg (cfg.nfm * 2 ^ (fi + 1)) st.g xv).2, xv]⟩]
        ++ uns, hstep, ?_, ?_, rfl, ?_, ?_, ?_⟩
    · rw [hut, hrb]; simp
    · simp
    · simp [hd]
    · simp [hrf, hdcf]
    · simp [hrg, hucf]
  · rcases h with h | h
    · exact absurd h hd
    have hf : st.fwd[fi + 1]? = some st.fwd[fi + 1] := List.getElem?_eq_getElem h
    obtain ⟨bs, hrb, hrh, hrbn, hrdr, hra, hrc, hru, hrA, hrC, hrf, hrg, hrr, hrv⟩ :=
      rb_spec cfg (cfg.nfm * 2 ^ (fi + 1))
        (st.g ++ [⟨.concat, [st.fwd[fi + 1], xv]⟩]) st.g.length
    obtain ⟨uns, hut, hh, hbn, hdr, hA, hC, hdcf, hucf⟩ :=
      ut_spec cfg
        ((residualBlock cfg (cfg.nfm * 2 ^ (fi + 1))
            (st.g ++ [⟨.concat, [st.fwd[fi + 1], xv]⟩]) st.g.length).1 ++
          [⟨.add, [(residualBlock cfg (cfg.nfm * 2 ^ (fi + 1))
            (st.g ++ [⟨.concat, [st.fwd[fi + 1], xv]⟩]) st.g.length).2, xv]⟩])
        ((residualBlock cfg (cfg.nfm * 2 ^ (fi + 1))
            (st.g ++ [⟨.concat, [st.fwd[fi + 1], xv]⟩]) st.g.length).1.length) fi
    have hstep : decStep cfg st fi = .ok
        { g := (upTransition cfg
            ((residualBlock cfg (cfg.nfm * 2 ^ (fi + 1))
                (st.g ++ [⟨.concat, [st.fwd[fi + 1], xv]⟩]) st.g.length).1 ++
              [⟨.add, [(residualBlock cfg (cfg.nfm * 2 ^ (fi + 1))
                (st.g ++ [⟨.concat, [st.fwd[fi + 1], xv]⟩]) st.g.length).2, xv]⟩])
            ((residualBlock cfg (cfg.nfm * 2 ^ (fi + 1))
                (st.g ++ [⟨.concat, [st.fwd[fi + 1], xv]⟩]) st.g.length).1.length) fi).1,
          x := some (upTransition cfg
            ((residualBlock cfg (cfg.nfm * 2 ^ (fi + 1))
                (st.g ++ [⟨.concat, [st.fwd[fi + 1], xv]⟩]) st.g.length).1 ++
              [⟨.add, [(residualBlock cfg (cfg.nfm * 2 ^ (fi + 1))
                (st.g ++ [⟨.concat, [st.fwd[fi + 1], xv]⟩]) st.g.length).2, xv]⟩])
            ((residualBlock cfg (cfg.nfm * 2 ^ (fi + 1))
                (st.g ++ [⟨.concat, [st.fwd[fi + 1], xv]⟩]) st.g.length).1.length) fi).2,
          fwd := st.fwd, reads := st.reads ++ [fi + 1] } := by
      simp [decStep, hx, hd, hf, addNode]
    refine ⟨_, ⟨.concat, [st.fwd[fi + 1], xv]⟩ ::
        (bs ++ [⟨.add, [(residualBlock cfg (cfg.nfm * 2 ^ (fi + 1))
          (st.g ++ [⟨.concat, [st.fwd[fi + 1], xv]⟩]) st.g.length).2, xv]⟩] ++ uns),
      hstep, ?_, ?_, rfl, ?_, ?_, ?_⟩
    · rw [hut, hrb]; simp
    · simp
    · simp [hd]
    · simp [hrf, hdcf]
    · simp [hrg, hucf]

/-- The encoder loop over any list of level indices, from a state that
already has a current tensor: every step succeeds, the buffer grows by one
add-node id per level (preserving `FwdOk`), nothing is read, and the strided
down-convolution filter trace extends by `nfm*2^(fi+1)` per level while the
transposed-convolution trace is unchanged. -/
theorem encLoop_spec (cfg : Config) :
    ∀ (L : List Nat) (st : St), st.x.isSome = true → FwdOk st →
    ∃ st' ns, encLoop cfg L st = .ok st' ∧ st'.g = st.g ++ ns ∧
      st'.x.isSome = true ∧ FwdOk st' ∧
      st'.fwd.length = st.fwd.length + L.length ∧
      st'.reads = st.reads ∧
      downConvFilters st'.g =
        downConvFilters st.g ++ L.map (fun fi => cfg.nfm * 2 ^ (fi + 1)) ∧
      upConvFilters st'.g = upConvFilters st.g := by
  intro L
  induction L with
  | nil =>
    intro st hx hf
    exact ⟨st, [], rfl, by simp, hx, hf, by simp, rfl, by simp, by simp⟩
  | cons fi fis ih =>
    intro st hx hf
    obtain ⟨st1, ns1, a, hstep, hg1, hx1, hfwd1, hreads1, hal, hau, hnode, hdcf1, hucf1⟩ :=
      encStep_spec cfg st fi (Or.inr hx)
    have hf1 : FwdOk st1 := by
      constructor
      · intro i hi
        rw [hfwd1] at hi
        rcases List.mem_append.mp hi with hi | hi
        · obtain ⟨hb, ins, hn⟩ := hf.1 i hi
          refine ⟨by rw [hg1]; simp; omega, ins, ?_⟩
          rw [hg1, List.getElem?_append_left hb]
          exact hn
        · rw [List.mem_singleton] at hi
          subst hi
          exact ⟨hau, hnode⟩
      · rw [hfwd1]
        refine List.pairwise_append.mpr ⟨hf.2, List.pairwise_singleton _ _, ?_⟩
        intro i hi b hb
        rw [List.mem_singleton] at hb
        subst hb
        exact lt_of_lt_of_le (hf.1 i hi).1 hal
    obtain ⟨st2, ns2, hloop, hg2, hx2, hf2, hlen2, hreads2, hdcf2, hucf2⟩ :=
      ih st1 hx1 hf1
    refine ⟨st2, ns1 ++ ns2, ?_, ?_, hx2, hf2, ?_, ?_, ?_, ?_⟩
    · simp [encLoop, hstep, hloop]
    · rw [hg2, hg1]; simp
    · rw [hlen2, hfwd1]; simp; omega
    · rw [hreads2, hreads1]
    · rw [hdcf2, hg1, downConvFilters_append, hdcf1]
      simp
    · rw [hucf2, hg1, upConvFilters_append, hucf1]
      simp

/-- The decoder loop over any list of level indices whose non-deepest
entries have an `fi+1` buffer entry: every step succeeds, the buffer is
unchanged, the read trace extends by `fi+1` exactly at non-deepest levels
(in loop order), and the transposed up-convolution trace extends by
`nfm*2^fi` per level while the down trace is unchanged. -/
theorem decLoop_spec (cfg : Config) :
    ∀ (L : List Nat) (st : St), st.x.isSome = true →
      (∀ fi ∈ L, (fi : Int) = cfg.nlevels - 1 ∨ fi + 1 < st.fwd.length) →
    ∃ st' ns, decLoop cfg L st = .ok st' ∧ st'.g = st.g ++ ns ∧
      st'.x.isSome = true ∧ st'.fwd = st.fwd ∧
      st'.reads = st.reads ++ L.filterMap
        (fun (fi : Nat) =>
          if (fi : Int) = cfg.nlevels - 1 then (none : Option Nat)
          else some (fi + 1)) ∧
      downConvFilters st'.g = downConvFilters st.g ∧
      upConvFilters st'.g =
        upConvFilters st.g ++ L.map (fun fi => cfg.nfm * 2 ^ fi) := by
  intro L
  induction L with
  | nil =>
    intro st hx hL
    exact ⟨st, [], rfl, by simp, hx, rfl, by simp, rfl, by simp⟩
  | cons fi fis ih =>
    intro st hx hL
    obtain ⟨xv, hxv⟩ := Option.isSome_iff_exists.mp hx
    obtain ⟨st1, ns1, hstep, hg1, hx1, hfwd1, hreads1, hdcf1, hucf1⟩ :=
      decStep_spec cfg st fi xv hxv (hL fi (List.mem_cons_self fi fis))
    obtain ⟨st2, ns2, hloop, hg2, hx2, hfwd2, hreads2, hdcf2, hucf2⟩ :=
      ih st1 hx1 (by
        intro fj hj
        rw [hfwd1]
        exact hL fj (List.mem_cons_of_mem fi hj))
    refine ⟨st2, ns1 ++ ns2, ?_, ?_, hx2, ?_, ?_, ?_, ?_⟩
    · simp [decLoop, hstep, hloop]
    · rw [hg2, hg1]; simp
    · rw [hfwd2, hfwd1]
    · rw [hreads2, hreads1, List.filterMap_cons]
      by_cases hd : (fi : Int) = cfg.nlevels - 1 <;> simp [hd]
    · rw [hdcf2, hg1, downConvFilters_append, hdcf1]
      simp
    · rw [hucf2, hg1, upConvFilters_append, hucf1]
      simp

/-- The fusion/head stage, as an exact equation on the resulting state:
with `n = |g|`, it appends the nodes `concat[f0,x]@n`, 5×5×5 `conv(nfm)@n+1`
on `n`, 1×1×1 `conv(nfm)@n+2` on the same `n`, `add@n+3` of those two, an
activation, the 1×1×1 `conv(2)@n+5`, an activation, and `softmax@n+7` which
becomes the output; it reads buffer index 0. -/
theorem fusion_spec (cfg : Config) (st : St) (xv f0 : Nat)
    (hx : st.x = some xv) (hf : st.fwd[0]? = some f0) :
    fusionHead cfg st = .ok
      { g := st.g ++ [⟨.concat, [f0, xv]⟩,
          ⟨.conv3d cfg.nfm [5, 5, 5] true [1, 1, 1], [st.g.length]⟩,
          ⟨.conv3d cfg.nfm [1, 1, 1] true [1, 1, 1], [st.g.length]⟩,
          ⟨.add, [st.g.length + 1, st.g.length + 2]⟩,
          ⟨actOp cfg, [st.g.length + 3]⟩,
          ⟨.conv3d 2 [1, 1, 1] false [1, 1, 1], [st.g.length + 4]⟩,
          ⟨actOp cfg, [st.g.length + 5]⟩,
          ⟨.softmax, [st.g.length + 6]⟩],
        x := some (st.g.length + 7), fwd := st.fwd,
        reads := st.reads ++ [0] } := by
  simp [fusionHead, hx, hf, addNode, nl_plain]

/-- Encoder level 0 in structural detail: from any state it appends, first,
the `nfm`-filter 5×5×5 same-padding convolution on the input node 0, its
activation, and the residual-sum add node whose operands are the activation
output and the raw input node 0. -/
theorem enc0_shape (cfg : Config) (st : St) :
    ∃ st' rest, encStep cfg st 0 = .ok st' ∧
      st'.g = st.g ++ ⟨.conv3d cfg.nfm [5, 5, 5] true [1, 1, 1], [0]⟩ ::
        ⟨actOp cfg, [st.g.length]⟩ :: ⟨.add, [st.g.length + 1, 0]⟩ :: rest := by
  obtain ⟨dns, hdt, hh, hbn, hdr, hA, hC, hdcf, hucf⟩ :=
    dt_spec cfg
      (st.g ++ [⟨.conv3d cfg.nfm [5, 5, 5] true [1, 1, 1], [0]⟩,
        ⟨actOp cfg, [st.g.length]⟩, ⟨.add, [st.g.length + 1, 0]⟩])
      (st.g.length + 2) 0
  have hstep : encStep cfg st 0 = .ok
      { g := (downTransition cfg
          (st.g ++ [⟨.conv3d cfg.nfm [5, 5, 5] true [1, 1, 1], [0]⟩,
            ⟨actOp cfg, [st.g.length]⟩, ⟨.add, [st.g.length + 1, 0]⟩])
          (st.g.length + 2) 0).1,
        x := some (downTransition cfg
          (st.g ++ [⟨.conv3d cfg.nfm [5, 5, 5] true [1, 1, 1], [0]⟩,
            ⟨actOp cfg, [st.g.length]⟩, ⟨.add, [st.g.length + 1, 0]⟩])
          (st.g.length + 2) 0).2,
        fwd := st.fwd ++ [st.g.length + 2], reads := st.reads } := by
    simp [encStep, addNode, nl_plain]
  refine ⟨_, dns, hstep, ?_⟩
  rw [hdt]
  simp

/-- A helper: over a list of indices all below `k`, with `k` the unique
deepest index, the decoder read-marking keeps every index, shifted by one. -/
theorem filterMap_mark_eq_map (c : Int) (k : Nat) (hc : (k : Int) = c) :
    ∀ l : List Nat, (∀ fi ∈ l, fi < k) →
      l.filterMap (fun (fi : Nat) =>
        if (fi : Int) = c then (none : Option Nat) else some (fi + 1))
        = l.map (fun fi => fi + 1) := by
  intro l
  induction l with
  | nil => simp
  | cons a as ihl =>
    intro hl
    have ha : ¬ ((a : Int) = c) := by
      have h2 := hl a (List.mem_cons_self a as)
      omega
    simp only [List.filterMap_cons, List.map_cons, if_neg ha,
      ihl (fun fi hfi => hl fi (List.mem_cons_of_mem a hfi))]

/-- Master structural lemma: for `nlevels >= 1` the construction succeeds;
the forward buffer gets exactly `nlevels` add-node entries in ascending
order during encoding with nothing read; the decoder reads indices
`nlevels-1` down to `1` in that order; the fusion stage reads index `0`
last, for a total read trace `reverse (range nlevels)`; the strided
down-convolution filter trace is `nfm*2^(fi+1)` for `fi = 0..nlevels-1` and
the transposed up-convolution trace is its mirrored halving; and the graph
begins with input, the level-0 convolution and activation, and the level-0
residual-sum add of node 2 and node 0. -/
theorem model_ok (cfg : Config) (h : 1 ≤ cfg.nlevels) :
    ∃ stE stD stF,
      encLoop cfg (pyRange cfg.nlevels) (initSt cfg) = .ok stE ∧
      decLoop cfg (pyRange cfg.nlevels).reverse stE = .ok stD ∧
      fusionHead cfg stD = .ok stF ∧
      get_model_state cfg = .ok stF ∧
      stE.fwd.length = cfg.nlevels.toNat ∧
      FwdOk stE ∧
      stE.reads = [] ∧
      stD.fwd = stE.fwd ∧
      stD.reads =
        ((List.range (cfg.nlevels.toNat - 1)).map (fun fi => fi + 1)).reverse ∧
      stF.fwd = stE.fwd ∧
      stF.reads = stD.reads ++ [0] ∧
      stF.reads = (List.range cfg.nlevels.toNat).reverse ∧
      downConvFilters stF.g =
        (List.range cfg.nlevels.toNat).map (fun fi => cfg.nfm * 2 ^ (fi + 1)) ∧
      upConvFilters stF.g =
        ((List.range cfg.nlevels.toNat).map (fun fi => cfg.nfm * 2 ^ fi)).reverse ∧
      (∃ rest, stF.g = ⟨.input cfg.input_shape, []⟩ ::
        ⟨.conv3d cfg.nfm [5, 5, 5] true [1, 1, 1], [0]⟩ ::
        ⟨actOp cfg, [1]⟩ :: ⟨.add, [2, 0]⟩ :: rest) ∧
      FwdOk stF := by
  obtain ⟨k, hk⟩ : ∃ k, cfg.nlevels.toNat = k + 1 := ⟨cfg.nlevels.toNat - 1, by omega⟩
  have hrange : pyRange cfg.nlevels = 0 :: (List.range k).map Nat.succ := by
    rw [pyRange, hk, List.range_succ_eq_map]
  obtain ⟨st1, ns1, a, hstep1, hg1, hx1, hfwd1, hreads1, hal, hau, hnode1, hdcf1, hucf1⟩ :=
    encStep_spec cfg (initSt cfg) 0 (Or.inl rfl)
  obtain ⟨st1b, rest0, hstep1b, hpre⟩ := enc0_shape cfg (initSt cfg)
  have hst1b : st1 = st1b := by
    rw [hstep1] at hstep1b
    exact Except.ok.inj hstep1b
  have hf1 : FwdOk st1 := by
    constructor
    · intro i hi
      rw [hfwd1] at hi
      simp [initSt] at hi
      subst hi
      exact ⟨hau, hnode1⟩
    · rw [hfwd1]
      simp [initSt]
  obtain ⟨stE, nsE, hloopE, hgE, hxE, hfE, hlenE, hreadsE, hdcfE, hucfE⟩ :=
    encLoop_spec cfg ((List.range k).map Nat.succ) st1 hx1 hf1
  have hencLoop : encLoop cfg (pyRange cfg.nlevels) (initSt cfg) = .ok stE := by
    rw [hrange]
    simp [encLoop, hstep1, hloopE]
  have hfwdlenE : stE.fwd.length = cfg.nlevels.toNat := by
    rw [hlenE, hfwd1]
    simp [initSt]
    omega
  have hreadsE' : stE.reads = [] := by
    rw [hreadsE, hreads1]
    rfl
  have hdcfE' : downConvFilters stE.g =
      (List.range cfg.nlevels.toNat).map (fun fi => cfg.nfm * 2 ^ (fi + 1)) := by
    rw [hdcfE, hg1, downConvFilters_append, hdcf1, hk, List.range_succ_eq_map]
    simp [initSt, Nat.succ_eq_add_one]
  have hucfE' : upConvFilters stE.g = [] := by
    rw [hucfE, hg1, upConvFilters_append, hucf1]
    simp [initSt]
  have hrevrange : (pyRange cfg.nlevels).reverse = k :: (List.range k).reverse := by
    rw [pyRange, hk, List.range_succ]
    simp
  have hcond : ∀ fi ∈ (pyRange cfg.nlevels).reverse,
      (fi : Int) = cfg.nlevels - 1 ∨ fi + 1 < stE.fwd.length := by
    intro fi hfi
    rw [List.mem_reverse, pyRange, List.mem_range] at hfi
    by_cases hfik : fi = k
    · left
      subst hfik
      omega
    · right
      rw [hfwdlenE]
      omega
  obtain ⟨stD, nsD, hloopD, hgD, hxD, hfwdD, hreadsD, hdcfD, hucfD⟩ :=
    decLoop_spec cfg (pyRange cfg.nlevels).reverse stE hxE hcond
  have hkc : (k : Int) = cfg.nlevels - 1 := by omega
  have hreadsD' : stD.reads =
      ((List.range (cfg.nlevels.toNat - 1)).map (fun fi => fi + 1)).reverse := by
    rw [hreadsD, hreadsE', hrevrange]
    simp only [List.filterMap_cons, if_pos hkc]
    rw [filterMap_mark_eq_map (cfg.nlevels - 1) k hkc ((List.range k).reverse)
      (by intro fi hfi; rw [List.mem_reverse, List.mem_range] at hfi; exact hfi)]
    rw [List.map_reverse]
    rw [hk]
    simp
  obtain ⟨xv, hxv⟩ := Option.isSome_iff_exists.mp hxD
  have hfwd0 : 0 < stD.fwd.length := by
    rw [hfwdD, hfwdlenE]
    omega
  have hf0 : stD.fwd[0]? = some stD.fwd[0] := List.getElem?_eq_getElem hfwd0
  have hfus := fusion_spec cfg stD xv stD.fwd[0] hxv hf0
  have hpreD : ∃ restD, stD.g = ⟨.input cfg.input_shape, []⟩ ::
      ⟨.conv3d cfg.nfm [5, 5, 5] true [1, 1, 1], [0]⟩ ::
      ⟨actOp cfg, [1]⟩ :: ⟨.add, [2, 0]⟩ :: restD := by
    refine ⟨rest0 ++ nsE ++ nsD, ?_⟩
    rw [hgD, hgE, hst1b, hpre]
    simp [initSt]
  refine ⟨stE, stD, _, hencLoop, hloopD, hfus, ?_, hfwdlenE, hfE, hreadsE',
    hfwdD, hreadsD', ?_, ?_, ?_, ?_, ?_, ?_, ?_⟩
  · simp only [get_model_state, hencLoop, hloopD]
    exact hfus
  · exact hfwdD
  · rfl
  · show stD.reads ++ [0] = (List.range cfg.nlevels.toNat).reverse
    rw [hreadsD', hk, List.range_succ_eq_map]
    simp [Nat.succ_eq_add_one, List.map_reverse]
  · show downConvFilters (stD.g ++ _) = _
    rw [downConvFilters_append, hdcfD, hdcfE']
    simp
  · show upConvFilters (stD.g ++ _) = _
    rw [upConvFilters_append, hucfD, hucfE', List.map_reverse]
    simp [pyRange]
  · obtain ⟨restD, hpd⟩ := hpreD
    show ∃ rest, stD.g ++ _ = _
    rw [hpd]
    simp only [List.cons_append]
    exact ⟨_, rfl⟩
  · constructor
    · intro i hi
      have hi2 : i ∈ stD.fwd := hi
      rw [hfwdD] at hi2
      obtain ⟨hb, ins, hn⟩ := hfE.1 i hi2
      have hbD : i < stD.g.length := by
        rw [hgD]
        simp
        omega
      constructor
      · show i < (stD.g ++ _).length
        simp
        omega
      · refine ⟨ins, ?_⟩
        show (stD.g ++ _)[i]? = _
        rw [List.getElem?_append_left hbD, hgD, List.getElem?_append_left hb]
        exact hn
    · show stD.fwd.Pairwise _
      rw [hfwdD]
      exact hfE.2

/-- For non-positive `nlevels` both loops are empty, so at the fusion stage
`forward_list` is empty and `x` was never assigned: construction fails
(the source raises `IndexError`/`NameError` at line 151). -/
theorem model_fail (cfg : Config) (h : cfg.nlevels ≤ 0) :
    isOkE (get_model_state cfg) = false := by
  have h0 : cfg.nlevels.toNat = 0 := by omega
  have hr : pyRange cfg.nlevels = [] := by
    rw [pyRange, h0]
    rfl
  rw [get_model_state, hr]
  simp [encLoop, decLoop, fusionHead, initSt, isOkE]

/-- The state of a successful construction, `none` on failure. -/
def okSt (e : Except String St) : Option St :=
  match e with
  | .ok st => some st
  | .error _ => none

/-- Output channel count of a node, by fuelled recursion through the graph:
the input node carries its shape's channel entry (index 3 of
`(X, Y, Z, C)`), convolutions their filter count, a concatenation the sum of
its inputs' channels, and every other layer passes its input through. -/
def chan (g : List Node) : Nat → Nat → Int
  | 0, _ => 0
  | fuel + 1, i =>
    match g[i]? with
    | none => 0
    | some nd =>
      match nd.op with
      | .input sh => sh.getD 3 0
      | .conv3d f _ _ _ => f
      | .conv3dT f _ _ => f
      | .concat => (nd.inputs.map (chan g fuel)).sum
      | _ =>
        match nd.inputs with
        | j :: _ => chan g fuel j
        | [] => 0

/-- Channel count of node `i` (fuel `i+1` suffices: inputs precede their
consumers in every graph the builder produces). -/
def channels (g : List Node) (i : Nat) : Int := chan g (i + 1) i

/-- Counting, over `range k`, the indices that pass the
`(ci == m) and b` batch-norm gate: one hit iff `b` holds and `m` lies in
the range. -/
theorem countP_range_gate (k : Nat) (m : Int) (b : Bool) :
    (List.range k).countP (fun (ci : Nat) => decide ((ci : Int) = m) && b) =
      if b = true ∧ 0 ≤ m ∧ m < (k : Int) then 1 else 0 := by
  induction k with
  | zero =>
    have hno : ¬(b = true ∧ 0 ≤ m ∧ m < ((0 : Nat) : Int)) := by
      rintro ⟨h1, h2, h3⟩
      omega
    rw [List.range_zero, List.countP_nil, if_neg hno]
  | succ k ih =>
    rw [List.range_succ, List.countP_append, ih]
    cases b with
    | false => simp [List.countP_cons]
    | true =>
      simp only [List.countP_cons, List.countP_nil, Bool.and_true,
        decide_eq_true_eq, true_and]
      split_ifs <;> omega

/-! ### Concrete configurations used by witnesses and counterexamples -/

/-- The rational 1/2, as a reduced fraction literal. -/
def ratHalf : ℚ := ⟨1, 2, by decide, Nat.coprime_one_left 2⟩

/-- The rational 1/4, as a reduced fraction literal. -/
def ratQuarter : ℚ := ⟨1, 4, by decide, Nat.coprime_one_left 4⟩

/-- Default parameters (`nfm=16`, 1-channel 64³ input, `nconv=2`) at
`nlevels=1` with a positive `dropout_out`. -/
def cfgDrop : Config := ⟨1, 16, [64, 64, 64, 1], 2, none, some ratHalf, none, false⟩

/-- `nlevels=1`, `nconv=1`, `batch_norm=True`. -/
def cfgBNtrue : Config := ⟨1, 16, [64, 64, 64, 1], 1, none, none, none, true⟩

/-- Default parameters at `nlevels=1`. -/
def cfgDefault : Config := ⟨1, 16, [64, 64, 64, 1], 2, none, none, none, false⟩

/-- `nlevels=1` with non-positive `nconv=0`. -/
def cfgNconv0 : Config := ⟨1, 16, [64, 64, 64, 1], 0, none, none, none, false⟩

/-- A three-level configuration with both dropouts and batch norm on. -/
def cfgW : Config := ⟨3, 4, [8, 8, 8, 1], 2, some ratHalf, some ratQuarter, none, true⟩

/-- A small two-level configuration. -/
def cfgW2 : Config := ⟨2, 4, [8, 8, 8, 1], 1, none, none, none, false⟩

/-- A two-level configuration for the decoder-step witness. -/
def cfg4 : Config := ⟨2, 4, [8, 8, 8, 1], 1, none, none, none, false⟩

/-- A state with a two-entry forward buffer, for the decoder-step witness. -/
def st4 : St :=
  ⟨[⟨.input [8, 8, 8, 1], []⟩, ⟨.add, [0, 0]⟩, ⟨.add, [0, 0]⟩], some 2, [1, 2], []⟩

/-- `nlevels=1`, `nconv=1`, `batch_norm=True` (residual blocks at the
minimal convolution count). -/
def cfg10 : Config := ⟨1, 4, [8, 8, 8, 1], 1, none, none, none, true⟩

/-- A one-level configuration for the fusion-head witness. -/
def cfgH : Config := ⟨1, 4, [8, 8, 8, 1], 1, none, none, none, false⟩

/-- A state with one forward-buffer entry, for the fusion-head witness. -/
def stH : St := ⟨[⟨.input [8, 8, 8, 1], []⟩, ⟨.add, [0, 0]⟩], some 1, [1], []⟩

/-! ### Claim C1 -/

/-- The transition-dropout behaviour as the code has it: the gate
`abs(fi - nlevels) < nlevels` holds exactly for `fi >= 1`, and with a truthy
`dropout_out` each transition's dropout node count grows by one exactly for
`fi >= 1`. -/
def TransDropoutRule (cfg : Config) (g : List Node) (x fi : Nat) : Prop :=
  (transCond cfg.nlevels fi = true ↔ 1 ≤ fi) ∧
  countOp isDrop (downTransition cfg g x fi).1 =
    countOp isDrop g + (if 1 ≤ fi then 1 else 0) ∧
  countOp isDrop (upTransition cfg g x fi).1 =
    countOp isDrop g + (if 1 ≤ fi then 1 else 0)

/-- C1 (counterexample): at `nlevels = 1` the gate is already false at the
in-range index `fi = 0`, and the `nlevels=1` model built with
`dropout_out = 0.5` contains no dropout layer at all — the claim predicts a
dropout layer after both of its transitions. -/
theorem trans_dropout_cex :
    transCond 1 0 = false ∧ pyTruthy cfgDrop.dropout_out = true ∧
    countOp isDrop (downTransition cfgDrop [] 0 0).1 = 0 ∧
    countOp isDrop (upTransition cfgDrop [] 0 0).1 = 0 ∧
    (okSt (get_model_state cfgDrop)).map (fun st => countOp isDrop st.g) =
      some 0 := by
  decide

/-- C1 (amended): for `nlevels >= 1` and `fi` in `[0, nlevels-1]`, the
transition-dropout condition `abs(fi - nlevels) < nlevels` evaluates to true
exactly when `fi >= 1`; hence, when `dropout_out` is a positive rate, a
dropout layer is applied after every down- and up-transition except the two
level-0 transitions, where the gate is false. -/
theorem trans_dropout_rule (cfg : Config) (g : List Node) (x fi : Nat)
    (h1 : 1 ≤ cfg.nlevels) (h2 : (fi : Int) < cfg.nlevels)
    (h3 : pyTruthy cfg.dropout_out = true) :
    TransDropoutRule cfg g x fi := by
  have hiff : transCond cfg.nlevels fi = true ↔ 1 ≤ fi := by
    rw [transCond,
      show |(fi : Int) - cfg.nlevels| = cfg.nlevels - fi from by
        rw [abs_of_nonpos (by omega)]
        ring]
    simp only [decide_eq_true_eq]
    omega
  have hswitch : (transCond cfg.nlevels fi && pyTruthy cfg.dropout_out) =
      decide (1 ≤ fi) := by
    rw [h3, Bool.and_true]
    by_cases hfi : 1 ≤ fi
    · rw [hiff.mpr hfi, decide_eq_true hfi]
    · have hfalse : transCond cfg.nlevels fi = false := by
        cases hC : transCond cfg.nlevels fi with
        | false => rfl
        | true => exact absurd (hiff.mp hC) hfi
      rw [hfalse, decide_eq_false hfi]
  refine ⟨hiff, ?_, ?_⟩
  · obtain ⟨ns, hg, hh, hbn, hdr, hA, hC, hdcf, hucf⟩ := dt_spec cfg g x fi
    rw [hg, countOp_append, hdr, hswitch]
    by_cases hfi : 1 ≤ fi <;> simp [hfi]
  · obtain ⟨ns, hg, hh, hbn, hdr, hA, hC, hdcf, hucf⟩ := ut_spec cfg g x fi
    rw [hg, countOp_append, hdr, hswitch]
    by_cases hfi : 1 ≤ fi <;> simp [hfi]

/-- Witness for `trans_dropout_rule` at `cfgW` (`nlevels=3`), `fi = 1`. -/
theorem trans_dropout_rule_witness :
    1 ≤ cfgW.nlevels ∧ ((1 : Nat) : Int) < cfgW.nlevels ∧
    pyTruthy cfgW.dropout_out = true ∧ TransDropoutRule cfgW [] 0 1 :=
  ⟨by decide, by decide, by decide,
    trans_dropout_rule cfgW [] 0 1 (by decide) (by decide) (by decide)⟩

/-! ### Claim C2 -/

/-- C2 (counterexample): with `batch_norm=True` (and `nconv=1`, so residual
blocks cannot contribute batch norm), the built `nlevels=1` model has a
`BatchNormalization` node immediately after the down-convolution (node 4 →
node 5) and after the up-convolution (node 10 → node 11): the transition
Nonlinearity Blocks do apply batch norm. -/
theorem trans_bn_cex :
    cfgBNtrue.batch_norm = true ∧
    (okSt (get_model_state cfgBNtrue)).map (fun st => st.g[4]?) =
      some (some ⟨.conv3d 32 [2, 2, 2] false [2, 2, 2], [3]⟩) ∧
    (okSt (get_model_state cfgBNtrue)).map (fun st => st.g[5]?) =
      some (some ⟨.batchNorm false, [4]⟩) ∧
    (okSt (get_model_state cfgBNtrue)).map (fun st => st.g[11]?) =
      some (some ⟨.batchNorm false, [10]⟩) := by
  decide

/-- Transition batch-norm behaviour as the code has it: every transition's
Nonlinearity Block receives the builder's global `batch_norm` default, so
each transition contributes exactly one batch-norm node iff the flag is
set. -/
def TransBNRule (cfg : Config) (g : List Node) (x fi : Nat) : Prop :=
  countOp isBN (downTransition cfg g x fi).1 =
    countOp isBN g + (if cfg.batch_norm then 1 else 0) ∧
  countOp isBN (upTransition cfg g x fi).1 =
    countOp isBN g + (if cfg.batch_norm then 1 else 0)

/-- C2 (amended): the Nonlinearity Block applied after each down-transition
and each up-transition uses the builder's `batch_norm` default, so batch
normalization is applied at every transition exactly when the global
`batch_norm` flag is set (not "never"). -/
theorem trans_bn_rule (cfg : Config) (g : List Node) (x fi : Nat) :
    TransBNRule cfg g x fi := by
  constructor
  · obtain ⟨ns, hg, hh, hbn, hdr, hA, hC, hdcf, hucf⟩ := dt_spec cfg g x fi
    rw [hg, countOp_append, hbn]
  · obtain ⟨ns, hg, hh, hbn, hdr, hA, hC, hdcf, hucf⟩ := ut_spec cfg g x fi
    rw [hg, countOp_append, hbn]

/-! ### Claim C3 -/

/-- The forward-feature buffer protocol: after encoding, the buffer holds
exactly `nlevels` entries, each the id of an add (residual-sum) node, in
strictly ascending id (level) order, with nothing yet read; the decoder
leaves the buffer unchanged and reads indices `nlevels-1, ..., 1` in that
(descending) order; the fusion stage reads index `0` last; so the complete
read trace is `reverse (range nlevels)` — every index consumed exactly
once. -/
def BufferProtocol (cfg : Config) : Prop :=
  ∃ stE stD stF,
    encLoop cfg (pyRange cfg.nlevels) (initSt cfg) = .ok stE ∧
    decLoop cfg (pyRange cfg.nlevels).reverse stE = .ok stD ∧
    fusionHead cfg stD = .ok stF ∧
    get_model_state cfg = .ok stF ∧
    stE.fwd.length = cfg.nlevels.toNat ∧
    (∀ i ∈ stE.fwd, ∃ ins, stE.g[i]? = some ⟨Op.add, ins⟩) ∧
    stE.fwd.Pairwise (fun a b => a < b) ∧
    stE.reads = [] ∧
    stD.fwd = stE.fwd ∧
    stD.reads =
      ((List.range (cfg.nlevels.toNat - 1)).map (fun fi => fi + 1)).reverse ∧
    stF.fwd = stE.fwd ∧
    stF.reads = stD.reads ++ [0] ∧
    stF.reads = (List.range cfg.nlevels.toNat).reverse

/-- C3 (confirmed): for every `nlevels >= 1` the forward-feature buffer
receives exactly `nlevels` entries, one per encoder level in ascending
order, each being the residual-sum add node of its level; during decoding
entry `fi+1` is consumed at decoder level `fi` (indices `nlevels-1` down to
`1`, descending), entry `0` is consumed at the fusion stage, and every
index is consumed exactly once (read trace = `reverse (range nlevels)`). -/
theorem buffer_protocol (cfg : Config) (h : 1 ≤ cfg.nlevels) :
    BufferProtocol cfg := by
  obtain ⟨stE, stD, stF, hE, hD, hF, hstate, hlen, hfE, hrE, hfwdD, hrD, hfF,
    hrF1, hrF2, hdcf, hucf, hpre, hfF2⟩ := model_ok cfg h
  exact ⟨stE, stD, stF, hE, hD, hF, hstate, hlen,
    fun i hi => (hfE.1 i hi).2, hfE.2, hrE, hfwdD, hrD, hfF, hrF1, hrF2⟩

/-- Witness for `buffer_protocol` at `cfgW2` (`nlevels=2`). -/
theorem buffer_protocol_witness :
    1 ≤ cfgW2.nlevels ∧ BufferProtocol cfgW2 :=
  ⟨by decide, buffer_protocol cfgW2 (by decide)⟩

/-! ### Claim C5 -/

/-- The strided down-convolutions appear in encoder order with filter
counts `nfm*2^(fi+1)` for `fi = 0..nlevels-1` (doubling), and the
transposed up-convolutions mirror them exactly in reverse with filter
counts `nfm*2^fi` (halving); each trace has length `nlevels`. -/
def TransitionMirror (cfg : Config) : Prop :=
  ∃ st, get_model_state cfg = .ok st ∧
    downConvFilters st.g =
      (List.range cfg.nlevels.toNat).map (fun fi => cfg.nfm * 2 ^ (fi + 1)) ∧
    upConvFilters st.g =
      ((List.range cfg.nlevels.toNat).map (fun fi => cfg.nfm * 2 ^ fi)).reverse ∧
    (downConvFilters st.g).length = cfg.nlevels.toNat ∧
    (upConvFilters st.g).length = cfg.nlevels.toNat

/-- C5 (confirmed): the builder inserts exactly `nlevels` strided
down-convolutions and exactly `nlevels` transposed up-convolutions; the
down-convolution at encoder level `fi` outputs `nfm*2^(fi+1)` feature maps
and the up-convolution at decoder level `fi` outputs `nfm*2^fi`, mirroring
the encoder in reverse. -/
theorem transition_mirror (cfg : Config) (h : 1 ≤ cfg.nlevels) :
    TransitionMirror cfg := by
  obtain ⟨stE, stD, stF, hE, hD, hF, hstate, hlen, hfE, hrE, hfwdD, hrD, hfF,
    hrF1, hrF2, hdcf, hucf, hpre, hfF2⟩ := model_ok cfg h
  refine ⟨stF, hstate, hdcf, hucf, ?_, ?_⟩ <;> simp [hdcf, hucf]

/-- Witness for `transition_mirror` at `cfgW` (`nlevels=3`). -/
theorem transition_mirror_witness :
    1 ≤ cfgW.nlevels ∧ TransitionMirror cfgW :=
  ⟨by decide, transition_mirror cfgW (by decide)⟩

/-! ### Claim C8 -/

/-- Channel counts of the two operands of the level-0 residual sum (always
node 3, adding node 2 — the activated `nfm`-filter convolution — to node 0,
the raw input): they are `nfm` and the input channel count, and they match
exactly when those two configuration values are equal. -/
def Level0SumSpec (cfg : Config) : Prop :=
  ∃ st, get_model_state cfg = .ok st ∧
    st.g[3]? = some ⟨Op.add, [2, 0]⟩ ∧
    channels st.g 2 = cfg.nfm ∧
    channels st.g 0 = cfg.input_shape.getD 3 0 ∧
    (channels st.g 2 = channels st.g 0 ↔ cfg.nfm = cfg.input_shape.getD 3 0)

/-- C8 (amended): at encoder level 0 the elementwise sum adds the
single-convolution residual (`nfm` channels) to the raw input tensor
(`input_shape`'s channel count); the operands' channel counts are `nfm`
and `C`, so under the spec's no-broadcasting rule the sum is well-formed
only when `C = nfm` — not for every valid configuration, and in particular
not in the default `nfm=16`, 1-channel-input configuration. -/
theorem level0_sum_channels (cfg : Config) (h : 1 ≤ cfg.nlevels) :
    Level0SumSpec cfg := by
  obtain ⟨stE, stD, stF, hE, hD, hF, hstate, hlen, hfE, hrE, hfwdD, hrD, hfF,
    hrF1, hrF2, hdcf, hucf, hpre, hfF2⟩ := model_ok cfg h
  obtain ⟨rest, hg⟩ := hpre
  have h2 : channels stF.g 2 = cfg.nfm := by
    rw [hg]
    rcases hl : cfg.lrelu_alpha with _ | a <;> simp [channels, chan, actOp, hl]
  have h0 : channels stF.g 0 = cfg.input_shape.getD 3 0 := by
    rw [hg]
    simp [channels, chan]
  exact ⟨stF, hstate, by rw [hg]; simp, h2, h0, by rw [h2, h0]⟩

/-- Witness for `level0_sum_channels` at `cfgW`. -/
theorem level0_sum_channels_witness :
    1 ≤ cfgW.nlevels ∧ Level0SumSpec cfgW :=
  ⟨by decide, level0_sum_channels cfgW (by decide)⟩

/-- C8 (counterexample): in the default configuration (`nfm=16`, input
shape `(64,64,64,1)`) the level-0 sum's operands have channel counts 16
and 1 — not a matching shape, so the claim "this sum is well-formed for
every valid configuration under the no-broadcasting rule" fails at the
default configuration itself. -/
theorem level0_sum_cex :
    (okSt (get_model_state cfgDefault)).map (fun st => st.g[3]?) =
      some (some ⟨Op.add, [2, 0]⟩) ∧
    (okSt (get_model_state cfgDefault)).map (fun st => channels st.g 2) =
      some 16 ∧
    (okSt (get_model_state cfgDefault)).map (fun st => channels st.g 0) =
      some 1 ∧
    (16 : Int) ≠ 1 := by
  decide

/-! ### Claim C9 -/

/-- `nlevels = 0` with otherwise-default parameters. -/
def cfgN0 : Config := ⟨0, 16, [64, 64, 64, 1], 2, none, none, none, false⟩

/-- `nlevels = 1` with a negative `nfm`. -/
def cfgNegNfm : Config := ⟨1, -4, [8, 8, 8, 1], 1, none, none, none, false⟩

/-- Modelled from the spec: §7 delegates configuration failures to "the
underlying tensor framework", and the framework rejects a convolution layer
whose filter count is negative (its kernel variable would have a negative
dimension) at the moment the layer is applied inside `get_model`.  The
builder itself performs no validation, so the framework accepts the
construction only if every (plain or transposed) convolution node carries a
nonnegative filter count.  Spatial-shape checks (e.g. an `input_shape` not
divisible by `2^nlevels`) are a further framework-level failure mode that
this predicate does not model. -/
def frameworkAccepts (g : List Node) : Bool :=
  g.all (fun nd =>
    match nd.op with
    | .conv3d f _ _ _ => decide (0 ≤ f)
    | .conv3dT f _ _ => decide (0 ≤ f)
    | _ => true)

/-- C9 (counterexample): `nconv = 0` is non-positive, yet construction
succeeds — `range(nconv-1)` is simply empty, no error is raised, and the
resulting model's layers even pass the framework's filter check. -/
theorem nconv_nonpos_ok :
    cfgNconv0.nconv = 0 ∧ isOkE (get_model_state cfgNconv0) = true ∧
    (okSt (get_model_state cfgNconv0)).map (fun st => frameworkAccepts st.g) =
      some true := by
  decide

/-- C9 (amended): (i) for non-positive `nlevels` the construction call
fails outright in the builder itself (both loops are empty, so the fusion
stage indexes the empty `forward_list` and references the never-assigned
`x`); (ii) for `nlevels >= 1` with negative `nfm` the builder's very first
layer — graph node 1, the 5×5×5 convolution on the input — carries the
negative filter count `nfm`, and the framework's kernel check
(`frameworkAccepts`, modelled from the spec) rejects the construction, as
the original claim says for negative `nfm`; but (iii) a non-positive
`nconv` is NOT a construction-time failure: `range(nconv-1)` is empty,
every residual block degenerates to a single convolution, and the builder
returns a completed model. -/
theorem build_failure_rule (cfg : Config) :
    (cfg.nlevels ≤ 0 → isOkE (get_model_state cfg) = false) ∧
    (1 ≤ cfg.nlevels → cfg.nfm < 0 →
      ∃ st, get_model_state cfg = .ok st ∧
        st.g[1]? = some ⟨.conv3d cfg.nfm [5, 5, 5] true [1, 1, 1], [0]⟩ ∧
        frameworkAccepts st.g = false) ∧
    (cfg.nconv ≤ 0 → 1 ≤ cfg.nlevels → isOkE (get_model_state cfg) = true) := by
  refine ⟨fun h => model_fail cfg h, ?_, ?_⟩
  · intro h hneg
    obtain ⟨stE, stD, stF, hE, hD, hF, hstate, hlen, hfE, hrE, hfwdD, hrD, hfF,
      hrF1, hrF2, hdcf, hucf, hpre, hfF2⟩ := model_ok cfg h
    obtain ⟨rest, hg⟩ := hpre
    have hno : ¬(0 ≤ cfg.nfm) := by omega
    refine ⟨stF, hstate, ?_, ?_⟩
    · rw [hg]
      simp
    · rw [hg]
      simp [frameworkAccepts, decide_eq_false hno]
  · intro hc h
    obtain ⟨stE, stD, stF, hE, hD, hF, hstate, hrest⟩ := model_ok cfg h
    rw [hstate]
    rfl

/-- Witness for `build_failure_rule`, exercising all three parts: `cfgN0`
(`nlevels=0`) fails; `cfgNegNfm` (`nfm=-4`) builds a graph whose node 1 is
the negative-filter convolution the framework rejects; `cfgNconv0`
(`nconv=0`) completes. -/
theorem build_failure_rule_witness :
    (cfgN0.nlevels ≤ 0 ∧ isOkE (get_model_state cfgN0) = false) ∧
    (1 ≤ cfgNegNfm.nlevels ∧ cfgNegNfm.nfm < 0 ∧
      ∃ st, get_model_state cfgNegNfm = .ok st ∧
        st.g[1]? = some ⟨.conv3d cfgNegNfm.nfm [5, 5, 5] true [1, 1, 1], [0]⟩ ∧
        frameworkAccepts st.g = false) ∧
    (cfgNconv0.nconv ≤ 0 ∧ 1 ≤ cfgNconv0.nlevels ∧
      isOkE (get_model_state cfgNconv0) = true) :=
  ⟨⟨by decide, (build_failure_rule cfgN0).1 (by decide)⟩,
   ⟨by decide, by decide,
    (build_failure_rule cfgNegNfm).2.1 (by decide) (by decide)⟩,
   ⟨by decide, by decide,
    (build_failure_rule cfgNconv0).2.2 (by decide) (by decide)⟩⟩

/-! ### Claim C4 -/

/-- Decoder-level structure: the step appends exactly one elementwise-add
node, whose second operand (the shortcut) is the pre-concatenation current
tensor `xv`; at the deepest level (`fi == nlevels-1`) no concatenation node
is appended, while at every shallower level the first appended node is the
channel-axis concatenation of forward-buffer entry `fi+1` with `xv`, the
second is the residual block's first 5×5×5 convolution taking that
concatenation as input, and exactly one concatenation node is appended. -/
def DecoderSkipSpec (cfg : Config) (st : St) (xv fi : Nat) : Prop :=
  ∃ st' ns, decStep cfg st fi = .ok st' ∧ st'.g = st.g ++ ns ∧
    countOp isAdd ns = 1 ∧
    (∀ nd ∈ ns, isAdd nd.op = true → nd.inputs[1]? = some xv) ∧
    (if (fi : Int) = cfg.nlevels - 1 then
      countOp isConcat ns = 0
    else
      ∃ f, st.fwd[fi + 1]? = some f ∧
        ns[0]? = some ⟨Op.concat, [f, xv]⟩ ∧
        ns[1]? = some ⟨Op.conv3d (cfg.nfm * 2 ^ (fi + 1)) [5, 5, 5] true [1, 1, 1],
          [st.g.length]⟩ ∧
        countOp isConcat ns = 1)

/-- C4 (confirmed): the deepest decoder level performs no concatenation;
every shallower decoder level concatenates forward-buffer entry `fi+1`
with the current tensor along the channel axis before its residual
convolutions; and the residual block's shortcut — the second operand of the
level's elementwise sum — is the pre-concatenation tensor. -/
theorem decoder_skip (cfg : Config) (st : St) (xv fi : Nat)
    (hx : st.x = some xv)
    (h : (fi : Int) = cfg.nlevels - 1 ∨ fi + 1 < st.fwd.length) :
    DecoderSkipSpec cfg st xv fi := by
  by_cases hd : (fi : Int) = cfg.nlevels - 1
  · obtain ⟨bs, hrb, hrh, hrbn, hrdr, hra, hrc, hru, hrA, hrC, hrf, hrg, hrr, hrv⟩ :=
      rb_spec cfg (cfg.nfm * 2 ^ (fi + 1)) st.g xv
    obtain ⟨uns, hut, hh, hbn, hdr, hA, hC, hdcf, hucf⟩ :=
      ut_spec cfg ((residualBlock cfg (cfg.nfm * 2 ^ (fi + 1)) st.g xv).1 ++
          [⟨.add, [(residualBlock cfg (cfg.nfm * 2 ^ (fi + 1)) st.g xv).2, xv]⟩])
        ((residualBlock cfg (cfg.nfm * 2 ^ (fi + 1)) st.g xv).1.length) fi
    have hstep : decStep cfg st fi = .ok
        { g := (upTransition cfg
            ((residualBlock cfg (cfg.nfm * 2 ^ (fi + 1)) st.g xv).1 ++
              [⟨.add, [(residualBlock cfg (cfg.nfm * 2 ^ (fi + 1)) st.g xv).2, xv]⟩])
            ((residualBlock cfg (cfg.nfm * 2 ^ (fi + 1)) st.g xv).1.length) fi).1,
          x := some (upTransition cfg
            ((residualBlock cfg (cfg.nfm * 2 ^ (fi + 1)) st.g xv).1 ++
              [⟨.add, [(residualBlock cfg (cfg.nfm * 2 ^ (fi + 1)) st.g xv).2, xv]⟩])
            ((residualBlock cfg (cfg.nfm * 2 ^ (fi + 1)) st.g xv).1.length) fi).2,
          fwd := st.fwd, reads := st.reads } := by
      simp [decStep, hx, hd, addNode]
    refine ⟨_, bs ++ [⟨.add, [(residualBlock cfg (cfg.nfm * 2 ^ (fi + 1)) st.g xv).2,
        xv]⟩] ++ uns, hstep, ?_, ?_, ?_, ?_⟩
    · rw [hut, hrb]; simp
    · simp only [countOp_append, hrA, hA]
      simp [isAdd]
    · intro nd hm hadd
      rcases List.mem_append.mp hm with hm | hm
      · rcases List.mem_append.mp hm with hm | hm
        · rw [countOp_zero_mem hrA nd hm] at hadd
          cases hadd
        · rw [List.mem_singleton] at hm
          subst hm
          rfl
      · rw [countOp_zero_mem hA nd hm] at hadd
        cases hadd
    · rw [if_pos hd]
      simp only [countOp_append, hrC, hC]
      simp [isConcat]
  · rcases h with h | h
    · exact absurd h hd
    have hf : st.fwd[fi + 1]? = some st.fwd[fi + 1] := List.getElem?_eq_getElem h
    obtain ⟨bs, hrb, hrh, hrbn, hrdr, hra, hrc, hru, hrA, hrC, hrf, hrg, hrr, hrv⟩ :=
      rb_spec cfg (cfg.nfm * 2 ^ (fi + 1))
        (st.g ++ [⟨.concat, [st.fwd[fi + 1], xv]⟩]) st.g.length
    obtain ⟨uns, hut, hh, hbn, hdr, hA, hC, hdcf, hucf⟩ :=
      ut_spec cfg
        ((residualBlock cfg (cfg.nfm * 2 ^ (fi + 1))
            (st.g ++ [⟨.concat, [st.fwd[fi + 1], xv]⟩]) st.g.length).1 ++
          [⟨.add, [(residualBlock cfg (cfg.nfm * 2 ^ (fi + 1))
            (st.g ++ [⟨.concat, [st.fwd[fi + 1], xv]⟩]) st.g.length).2, xv]⟩])
        ((residualBlock cfg (cfg.nfm * 2 ^ (fi + 1))
            (st.g ++ [⟨.concat, [st.fwd[fi + 1], xv]⟩]) st.g.length).1.length) fi
    have hstep : decStep cfg st fi = .ok
        { g := (upTransition cfg
            ((residualBlock cfg (cfg.nfm * 2 ^ (fi + 1))
                (st.g ++ [⟨.concat, [st.fwd[fi + 1], xv]⟩]) st.g.length).1 ++
              [⟨.add, [(residualBlock cfg (cfg.nfm * 2 ^ (fi + 1))
                (st.g ++ [⟨.concat, [st.fwd[fi + 1], xv]⟩]) st.g.length).2, xv]⟩])
            ((residualBlock cfg (cfg.nfm * 2 ^ (fi + 1))
                (st.g ++ [⟨.concat, [st.fwd[fi + 1], xv]⟩]) st.g.length).1.length) fi).1,
          x := some (upTransition cfg
            ((residualBlock cfg (cfg.nfm * 2 ^ (fi + 1))
                (st.g ++ [⟨.concat, [st.fwd[fi + 1], xv]⟩]) st.g.length).1 ++
              [⟨.add, [(residualBlock cfg (cfg.nfm * 2 ^ (fi + 1))
                (st.g ++ [⟨.concat, [st.fwd[fi + 1], xv]⟩]) st.g.length).2, xv]⟩])
            ((residualBlock cfg (cfg.nfm * 2 ^ (fi + 1))
                (st.g ++ [⟨.concat, [st.fwd[fi + 1], xv]⟩]) st.g.length).1.length) fi).2,
          fwd := st.fwd, reads := st.reads ++ [fi + 1] } := by
      simp [decStep, hx, hd, hf, addNode]
    have hbs : 0 < bs.length := by
      cases bs with
      | nil => cases hrh
      | cons b bbs => simp
    refine ⟨_, ⟨.concat, [st.fwd[fi + 1], xv]⟩ ::
        (bs ++ [⟨.add, [(residualBlock cfg (cfg.nfm * 2 ^ (fi + 1))
          (st.g ++ [⟨.concat, [st.fwd[fi + 1], xv]⟩]) st.g.length).2, xv]⟩] ++ uns),
      hstep, ?_, ?_, ?_, ?_⟩
    · rw [hut, hrb]; simp
    · simp only [countOp_cons, countOp_append, hrA, hA]
      simp [isAdd, isConcat]
    · intro nd hm hadd
      rcases List.mem_cons.mp hm with hm | hm
      · subst hm
        simp [isAdd] at hadd
      rcases List.mem_append.mp hm with hm | hm
      · rcases List.mem_append.mp hm with hm | hm
        · rw [countOp_zero_mem hrA nd hm] at hadd
          cases hadd
        · rw [List.mem_singleton] at hm
          subst hm
          rfl
      · rw [countOp_zero_mem hA nd hm] at hadd
        cases hadd
    · rw [if_neg hd]
      refine ⟨st.fwd[fi + 1], hf, by simp, ?_, ?_⟩
      · show (_ :: ((bs ++ _) ++ _))[1]? = _
        rw [List.getElem?_cons_succ,
          List.getElem?_append_left (by simp : (0 : Nat) < (bs ++ _).length),
          List.getElem?_append_left hbs]
        exact hrh
      · simp only [countOp_cons, countOp_append, hrC, hC]
        simp [isConcat]

/-- Witness for `decoder_skip` at `cfg4`, `st4`, decoder level 0 (the
non-deepest branch, consuming buffer entry 1). -/
theorem decoder_skip_witness :
    st4.x = some 2 ∧ (0 + 1 < st4.fwd.length) ∧ DecoderSkipSpec cfg4 st4 2 0 :=
  ⟨rfl, by decide, decoder_skip cfg4 st4 2 0 rfl (Or.inr (by decide))⟩

/-! ### Claim C6 -/

/-- Residual-block batch-norm/dropout placement: the block's first node is
its 5×5×5 convolution; the block contains exactly one batch-norm node when
the caller's flag is set and `nconv >= 2`, and none otherwise; running
every round but the last (`range (nconv-2)`) adds no batch-norm node from
any start state (so the one batch-norm node can only sit in the last
round); dropout nodes number one per convolution (`1 + (nconv-1)` rounds)
when `dropout_in` is truthy, each carrying rate `dropout_in`. -/
def ResidualBlockRule (cfg : Config) (filters : Int) (g : List Node) (t : Nat) :
    Prop :=
  ∃ ns, (residualBlock cfg filters g t).1 = g ++ ns ∧
    ns[0]? = some ⟨Op.conv3d filters [5, 5, 5] true [1, 1, 1], [t]⟩ ∧
    countOp isBN ns = (if cfg.batch_norm = true ∧ 2 ≤ cfg.nconv then 1 else 0) ∧
    (∀ (g' : List Node) (t' : Nat),
      countOp isBN (resRoundsGo cfg filters
        (List.range ((cfg.nconv - 2).toNat)) g' t').1 = countOp isBN g') ∧
    countOp isDrop ns =
      (if pyTruthy cfg.dropout_in then 1 + (cfg.nconv - 1).toNat else 0) ∧
    (∀ nd ∈ ns, isDrop nd.op = true → nd.op = .dropout (cfg.dropout_in.getD 0))

/-- C6 (confirmed): in every full Residual Block the first convolution's
Nonlinearity Block has batch norm off; among the `nconv-1` additional
rounds, batch normalization is enabled only on the last round and only when
the caller's `batch_norm` flag is set (one batch-norm node iff
`batch_norm ∧ nconv >= 2`, and the all-but-last rounds contribute none);
dropout is applied at rate `dropout_in` on every round. -/
theorem residual_block_rule (cfg : Config) (filters : Int) (g : List Node)
    (t : Nat) : ResidualBlockRule cfg filters g t := by
  obtain ⟨ns, hg, hh, hbn, hdr, hac, hcv, hup, hA, hC, hdcf, hucf, hrate, hconv⟩ :=
    rb_spec cfg filters g t
  refine ⟨ns, hg, hh, ?_, ?_, hdr, hrate⟩
  · rw [hbn, show pyRange (cfg.nconv - 1) = List.range ((cfg.nconv - 1).toNat)
      from rfl, countP_range_gate]
    by_cases hb : cfg.batch_norm = true
    · simp only [hb, true_and]
      split_ifs <;> omega
    · have hb2 : cfg.batch_norm = false := by
        cases hB : cfg.batch_norm with
        | false => rfl
        | true => exact absurd hB hb
      simp [hb2]
  · intro g' t'
    obtain ⟨ns2, hg2, hbn2, hrest⟩ :=
      rounds_spec cfg filters (List.range ((cfg.nconv - 2).toNat)) g' t'
    rw [hg2, countOp_append, hbn2, countP_range_gate, if_neg]
    · simp
    · rintro ⟨hb, h1, h2⟩
      omega

/-! ### Claim C7 -/

/-- The fusion/head stage as an exact state equation: concatenate buffer
entry 0 with the decoder output; apply the 5×5×5 `nfm`-filter residual
convolution and the 1×1×1 `nfm`-filter shortcut convolution to that same
concatenated tensor; sum them; one activation; the final 1×1×1 convolution
to exactly 2 channels; one activation; then the channel-axis softmax as the
output node. -/
def FusionHeadSpec (cfg : Config) (st : St) (xv f0 : Nat) : Prop :=
  fusionHead cfg st = .ok
    { g := st.g ++ [⟨.concat, [f0, xv]⟩,
        ⟨.conv3d cfg.nfm [5, 5, 5] true [1, 1, 1], [st.g.length]⟩,
        ⟨.conv3d cfg.nfm [1, 1, 1] true [1, 1, 1], [st.g.length]⟩,
        ⟨.add, [st.g.length + 1, st.g.length + 2]⟩,
        ⟨actOp cfg, [st.g.length + 3]⟩,
        ⟨.conv3d 2 [1, 1, 1] false [1, 1, 1], [st.g.length + 4]⟩,
        ⟨actOp cfg, [st.g.length + 5]⟩,
        ⟨.softmax, [st.g.length + 6]⟩],
      x := some (st.g.length + 7), fwd := st.fwd,
      reads := st.reads ++ [0] }

/-- C7 (confirmed): at the fusion/head stage, buffer entry 0 is
concatenated with the decoder output; the residual is a 5×5×5 convolution
to `nfm` channels and the shortcut a 1×1×1 convolution to `nfm` channels,
both applied to the same concatenated tensor; after their sum and a
nonlinearity, a final 1×1×1 convolution produces exactly 2 output channels,
followed by a nonlinearity and a softmax over the channel axis as the model
output. -/
theorem fusion_head_structure (cfg : Config) (st : St) (xv f0 : Nat)
    (hx : st.x = some xv) (hf : st.fwd[0]? = some f0) :
    FusionHeadSpec cfg st xv f0 :=
  fusion_spec cfg st xv f0 hx hf

/-- Witness for `fusion_head_structure` at `cfgH`, `stH`. -/
theorem fusion_head_structure_witness :
    stH.x = some 1 ∧ stH.fwd[0]? = some 1 ∧ FusionHeadSpec cfgH stH 1 1 :=
  ⟨rfl, by decide, fusion_head_structure cfgH stH 1 1 rfl (by decide)⟩

/-! ### Claim C10 -/

/-- A residual block at `nconv = 1`: exactly one convolution (the 5×5×5
same-padding one, first in the block), exactly one activation, and no batch
normalization whatever the `batch_norm` flag. -/
def NconvOneBlock (cfg : Config) (filters : Int) (g : List Node) (t : Nat) :
    Prop :=
  ∃ ns, (residualBlock cfg filters g t).1 = g ++ ns ∧
    countOp isConv ns = 1 ∧
    countOp isActv ns = 1 ∧
    countOp isBN ns = 0 ∧
    ns[0]? = some ⟨Op.conv3d filters [5, 5, 5] true [1, 1, 1], [t]⟩

/-- C10 (confirmed): when `nconv = 1` the additional-convolution loop is
empty, so every full residual block consists of exactly one 5×5×5
convolution plus nonlinearity, and no batch-normalization layer appears
inside any residual block even when `batch_norm=True`. -/
theorem nconv_one_block (cfg : Config) (filters : Int) (g : List Node)
    (t : Nat) (h1 : cfg.nconv = 1) : NconvOneBlock cfg filters g t := by
  obtain ⟨ns, hg, hh, hbn, hdr, hac, hcv, hup, hA, hC, hdcf, hucf, hrate, hconv⟩ :=
    rb_spec cfg filters g t
  have hz : (cfg.nconv - 1).toNat = 0 := by omega
  have hr : pyRange (cfg.nconv - 1) = [] := by
    rw [pyRange, hz]
    rfl
  refine ⟨ns, hg, ?_, ?_, ?_, hh⟩
  · rw [hcv, hz]
  · rw [hac, hz]
  · rw [hbn, hr]
    rfl

/-- Witness for `nconv_one_block` at `cfg10` (which has `batch_norm=True`). -/
theorem nconv_one_block_witness :
    cfg10.nconv = 1 ∧ NconvOneBlock cfg10 4 [] 0 :=
  ⟨rfl, nconv_one_block cfg10 4 [] 0 rfl⟩

end Halonet
